import Mathlib

set_option maxHeartbeats 1000000

/-!
Verification of the text-extraction / correlation core of the molt-mail-digest
repository: `app/city_extract.py` (section segmentation and vacancy parsing),
`app/digest.py` (claim correlation) and `app/db.py` (daily counters).

Strings are modelled as `List Char` (Python `str` is a sequence of code
points, which matches Lean's `Char` = unicode scalar value).  `str.lower`
and the `\s` / `\d` regex classes are modelled for the alphabets this
program manipulates (ASCII and Cyrillic).
-/

namespace MoltMail

abbrev Str := List Char

/-- Characters treated as whitespace by Python's `str.strip` and the `\s`
regex class (modelled for the BMP subset that can occur in this data). -/
def pyWs (c : Char) : Bool :=
  c = ' ' || c = '\t' || c = '\n' || c = '\r' ||
  c.toNat = 0x0B || c.toNat = 0x0C ||
  c.toNat = 0x1C || c.toNat = 0x1D || c.toNat = 0x1E || c.toNat = 0x1F ||
  c.toNat = 0x85 || c.toNat = 0xA0 ||
  c.toNat = 0x1680 || (0x2000 ≤ c.toNat && c.toNat ≤ 0x200A) ||
  c.toNat = 0x2028 || c.toNat = 0x2029 || c.toNat = 0x202F ||
  c.toNat = 0x205F || c.toNat = 0x3000

/-- `str.strip()`: drop whitespace from both ends. -/
def pyStrip (l : Str) : Str :=
  ((l.dropWhile pyWs).reverse.dropWhile pyWs).reverse

/-- `str.lower()` restricted to the alphabets this program manipulates:
ASCII `A-Z` and Cyrillic `А-Я`, `Ё`. -/
def pyLower (c : Char) : Char :=
  if 'A' ≤ c ∧ c ≤ 'Z' then Char.ofNat (c.toNat + 32)
  else if 0x410 ≤ c.toNat ∧ c.toNat ≤ 0x42F then Char.ofNat (c.toNat + 32)
  else if c.toNat = 0x401 then Char.ofNat 0x451
  else c

/-- `str.replace("ё", "е")` applied pointwise. -/
def yoFold (c : Char) : Char :=
  if c.toNat = 0x451 then Char.ofNat 0x435 else c

/-- ASCII decimal digit — the `\d` regex class (modelled for ASCII). -/
def isDigitCh (c : Char) : Bool := '0' ≤ c && c ≤ '9'

/-- Worker for `collapseWs`; `prevWs` records whether the previous
character was whitespace (so a continuing run emits nothing). -/
def collapseWsGo (prevWs : Bool) : Str → Str
  | [] => []
  | c :: cs =>
    if pyWs c then
      if prevWs then collapseWsGo true cs else ' ' :: collapseWsGo true cs
    else c :: collapseWsGo false cs

/-- `re.sub(r"\s+", " ", t)`: collapse each maximal whitespace run into a
single space. -/
def collapseWs (l : Str) : Str := collapseWsGo false l

/-- `_normalize_city` from `city_extract.py`: strip, lower-case, fold `ё`
to `е`, collapse whitespace. -/
def _normalize_city (city : Str) : Str :=
  collapseWs (((pyStrip city).map pyLower).map yoFold)

/-- `_normalize_wording` from `city_extract.py` (same transformation as
`_normalize_city`). -/
def _normalize_wording (text : Str) : Str :=
  collapseWs (((pyStrip text).map pyLower).map yoFold)

/-- Line-boundary characters recognised by Python's `str.splitlines`. -/
def isLineBreak (c : Char) : Bool :=
  c = '\n' || c = '\r' || c.toNat = 0x0B || c.toNat = 0x0C ||
  c.toNat = 0x1C || c.toNat = 0x1D || c.toNat = 0x1E ||
  c.toNat = 0x85 || c.toNat = 0x2028 || c.toNat = 0x2029

/-- Worker for `pySplitlines`; `acc` holds the current line reversed. -/
def splitlinesGo (acc : Str) : Str → List Str
  | [] => [acc.reverse]
  | '\r' :: '\n' :: rest =>
    acc.reverse :: (if rest.isEmpty then [] else splitlinesGo [] rest)
  | c :: rest =>
    if isLineBreak c then
      acc.reverse :: (if rest.isEmpty then [] else splitlinesGo [] rest)
    else splitlinesGo (c :: acc) rest

/-- `str.splitlines()`. -/
def pySplitlines (s : Str) : List Str :=
  if s.isEmpty then [] else splitlinesGo [] s

/-- `"\n".join(lines)`. -/
def joinNL (lines : List Str) : Str :=
  List.intercalate ['\n'] lines

/-- Upper-case class `[А-ЯЁA-Z]` of the city-header patterns. -/
def headerUpper (c : Char) : Bool :=
  (0x410 ≤ c.toNat && c.toNat ≤ 0x42F) || c.toNat = 0x401 || ('A' ≤ c && c ≤ 'Z')

/-- Body class `[А-Яа-яЁёA-Za-z\- ]` of the city-header patterns. -/
def headerBody (c : Char) : Bool :=
  (0x410 ≤ c.toNat && c.toNat ≤ 0x44F) || c.toNat = 0x401 || c.toNat = 0x451 ||
  ('A' ≤ c && c ≤ 'Z') || ('a' ≤ c && c ≤ 'z') || c = '-' || c = ' '

/-- Does `t` match the residue `\s*:?\s*$` of `CITY_HEADER_RE`? -/
def plainTail (t : Str) : Bool :=
  match t.dropWhile pyWs with
  | [] => true
  | ':' :: t2 => (t2.dropWhile pyWs).isEmpty
  | _ => false

/-- Does `t` match the residue `\s*\(\d+\)\s*:?\s*$` of
`CITY_HEADER_WITH_COUNT_RE`? -/
def countTail (t : Str) : Bool :=
  match t.dropWhile pyWs with
  | '(' :: t2 =>
    !(t2.takeWhile isDigitCh).isEmpty &&
      (match t2.dropWhile isDigitCh with
       | ')' :: t3 => plainTail t3
       | _ => false)
  | _ => false

/-- Greedy `[..]{1,60}` body of the header group: the longest body prefix
(of length `≤ k+…`) whose residue matches `tail` wins (regex backtracking,
longest first, at least one character). -/
def tryBody (tail : Str → Bool) (rest : Str) : Nat → Option Str
  | 0 => none
  | k + 1 =>
    if tail (rest.drop (k + 1)) then some (rest.take (k + 1))
    else tryBody tail rest k

/-- `re.match` of a city-header pattern
`^\s*([А-ЯЁA-Z][А-Яа-яЁёA-Za-z\- ]{1,60})<tail>` — returns group 1. -/
def headerMatch (tail : Str → Bool) (s : Str) : Option Str :=
  match s.dropWhile pyWs with
  | [] => none
  | u :: rest =>
    if headerUpper u then
      (tryBody tail rest (min 60 (rest.takeWhile headerBody).length)).map (u :: ·)
    else none

/-- `CITY_HEADER_RE.match(s)`, returning group 1. -/
def cityHeaderMatch (s : Str) : Option Str := headerMatch plainTail s

/-- `CITY_HEADER_WITH_COUNT_RE.match(s)`, returning group 1. -/
def cityHeaderCountMatch (s : Str) : Option Str := headerMatch countTail s

/-- `str.rstrip(":")`. -/
def rstripColon (l : Str) : Str :=
  (l.reverse.dropWhile (· = ':')).reverse

/-- `_extract_city_from_header` from `city_extract.py`. -/
def _extract_city_from_header (line : Str) : Str :=
  let raw := pyStrip line
  match cityHeaderCountMatch raw with
  | some g => _normalize_city g
  | none =>
    match cityHeaderMatch raw with
    | some g => _normalize_city g
    | none => _normalize_city (rstripColon raw)

/-- `_is_city_header_line` from `city_extract.py`. -/
def _is_city_header_line (line : Str) : Bool :=
  let raw := pyStrip line
  (cityHeaderCountMatch raw).isSome || (cityHeaderMatch raw).isSome

/-- Case-insensitive literal matcher (`re.IGNORECASE`): consumes the
pattern literal from the front of the subject, returning the remainder. -/
def matchLitCI : Str → Str → Option Str
  | [], s => some s
  | _ :: _, [] => none
  | p :: ps, c :: cs => if pyLower c = pyLower p then matchLitCI ps cs else none

/-- The `hh\.ru/vacancy/\d+` core of `VACANCY_LINK_RE`; returns remainder. -/
def linkCore (r : Str) : Option Str :=
  (matchLitCI "hh.ru/vacancy/".toList r).bind fun r2 =>
    let ds := r2.takeWhile isDigitCh
    if ds.isEmpty then none else some (r2.drop ds.length)

/-- `VACANCY_LINK_RE` (`https?://(?:www\.)?hh\.ru/vacancy/\d+`,
case-insensitive) anchored at the front of `s`; returns the matched text
(`m.group(0)`, with greedy `s?`, `(?:www\.)?` and `\d+`). -/
def matchLinkAt (s : Str) : Option Str :=
  ((matchLitCI "http".toList s).bind fun r1 =>
    ((matchLitCI "s://".toList r1).orElse fun _ => matchLitCI "://".toList r1).bind
      fun r2 =>
        ((matchLitCI "www.".toList r2).bind linkCore).orElse fun _ =>
          linkCore r2).map fun rem => s.take (s.length - rem.length)

/-- `VACANCY_LINK_RE.search(s)`: leftmost match. -/
def searchLink : Str → Option Str
  | [] => none
  | c :: cs => (matchLinkAt (c :: cs)).orElse fun _ => searchLink cs

/-- `re.match(r"^\d+\.\s+", line)`: when it matches, returns the rest of
the line after the matched prefix (which is what
`re.sub(r"^\d+\.\s+", "", line)` keeps). -/
def numberedRest (l : Str) : Option Str :=
  let ds := l.takeWhile isDigitCh
  if ds.isEmpty then none
  else
    match l.drop ds.length with
    | '.' :: r =>
      let ws := r.takeWhile pyWs
      if ws.isEmpty then none else some (r.drop ws.length)
    | _ => none

/-- `s.split(sep)[0]`: the text before the first occurrence of `sep`
(the whole string when `sep` does not occur). -/
def splitFirstPart (sep : Str) : Str → Str
  | [] => []
  | c :: cs => if sep.isPrefixOf (c :: cs) then [] else c :: splitFirstPart sep cs

/-- The `" — "` (em-dash) separator used on title lines. -/
def emDashSep : Str := " — ".toList

/-- `SPB_ALIASES` from `city_extract.py`. -/
def SPB_ALIASES : List Str :=
  ["санкт-петербург".toList, "санкт петербург".toList, "спб".toList, "питер".toList]

/-- `DEFAULT_BANNED_KEYWORDS` from `city_extract.py`. -/
def DEFAULT_BANNED_KEYWORDS : List Str :=
  ["врач".toList, "водитель".toList, "агент".toList, "терапевт".toList, "диспетчер".toList]

/-- `REMOTE_WORK_KEYWORDS` from `city_extract.py`. -/
def REMOTE_WORK_KEYWORDS : List Str :=
  ["удаленная работа".toList, "удалённая работа".toList]

/-- Python's substring test `a in b`. -/
def inStr (a b : Str) : Bool := decide (a <:+: b)

/-- `_is_banned_title` from `city_extract.py`. -/
def _is_banned_title (title : Str) (banned : List Str) : Bool :=
  let normalized_title := _normalize_wording title
  banned.any fun w => !(pyStrip w).isEmpty && inStr (_normalize_wording w) normalized_title

/-- `_is_remote_work_line` from `city_extract.py`. -/
def _is_remote_work_line (text : Str) : Bool :=
  let normalized := _normalize_wording text
  REMOTE_WORK_KEYWORDS.any fun k => inStr k normalized

/-- `\s*$` after the group of `COMPANY_RE` (with `$` in MULTILINE mode):
some prefix of the whitespace run ends at end-of-string or right before a
newline. -/
def wsDollar (r : Str) : Bool :=
  let w := r.takeWhile pyWs
  (r.drop w.length).isEmpty || w.contains '\n'

/-- The non-greedy `(.+?)\s*$` of `COMPANY_RE`: length of the smallest
non-empty run of non-newline characters whose residue matches `\s*$`. -/
def dotScan : Str → Option Nat
  | [] => none
  | c :: cs =>
    if c = '\n' then none
    else if wsDollar cs then some 1
    else (dotScan cs).map (· + 1)

/-- Backtracking of the greedy `\s*` before the group of `COMPANY_RE`:
`k` whitespace characters are consumed, tried longest-first down to zero. -/
def groupTry (t : Str) : Nat → Option Str
  | 0 => (dotScan t).map fun j => t.take j
  | k + 1 =>
    match dotScan (t.drop (k + 1)) with
    | some j => some ((t.drop (k + 1)).take j)
    | none => groupTry t k

/-- `COMPANY_RE` (`^\s*Компания\s*:\s*(.+?)\s*$`, IGNORECASE | MULTILINE)
attempted at one `^` position; returns group 1. -/
def companyAt (t : Str) : Option Str :=
  let t1 := t.dropWhile pyWs
  (matchLitCI "компания".toList t1).bind fun t2 =>
    match t2.dropWhile pyWs with
    | ':' :: t4 => groupTry t4 (t4.takeWhile pyWs).length
    | _ => none

/-- Suffixes of `t` at the `^` positions of MULTILINE mode: position 0 and
immediately after each newline. -/
def afterNewlineSuffixes : Str → List Str
  | [] => []
  | c :: cs =>
    if c = '\n' then cs :: afterNewlineSuffixes cs else afterNewlineSuffixes cs

/-- All MULTILINE `^` positions of `t`, leftmost first. -/
def lineStartSuffixes (t : Str) : List Str := t :: afterNewlineSuffixes t

/-- `extract_company_name` from `city_extract.py`: `COMPANY_RE.search`,
returning group 1 stripped, or the empty string. -/
def extract_company_name (text : Str) : Str :=
  match (lineStartSuffixes text).findSome? companyAt with
  | some g => pyStrip g
  | none => []


/-- The default `target_city` of `extract_city_block` / `parse_spb_vacancies`. -/
def spbTargetCity : Str := "Санкт-Петербург".toList

/-- The alias-expanded target set of `extract_city_block`:
`{target}` extended with `SPB_ALIASES` when the target is itself an alias. -/
def targetAliasList (target_city : Str) : List Str :=
  let target := _normalize_city target_city
  if target ∈ SPB_ALIASES then target :: SPB_ALIASES else [target]

/-- The start-of-section scan of `extract_city_block`: index of the first
line whose stripped form is non-empty and satisfies `p`. -/
def findStartIdx (p : Str → Bool) : List Str → Option Nat
  | [] => none
  | l :: ls =>
    if (pyStrip l).isEmpty then (findStartIdx p ls).map (· + 1)
    else if p (pyStrip l) then some 0
    else (findStartIdx p ls).map (· + 1)

/-- The end-of-section scan of `extract_city_block`: offset of the first
line whose stripped form is non-empty and satisfies `p`, or the list
length when there is none. -/
def findBoundary (p : Str → Bool) : List Str → Nat
  | [] => 0
  | l :: ls =>
    if (pyStrip l).isEmpty then 1 + findBoundary p ls
    else if p (pyStrip l) then 0
    else 1 + findBoundary p ls

/-- The start-line predicate of `extract_city_block`: a city header whose
identity is in the alias-expanded target set. -/
def blockStartPred (ta : List Str) (l : Str) : Bool :=
  _is_city_header_line l && decide (_extract_city_from_header l ∈ ta)

/-- The boundary predicate of `extract_city_block`: a city header whose
identity is NOT in the alias-expanded target set. -/
def blockEndPred (ta : List Str) (l : Str) : Bool :=
  _is_city_header_line l && !decide (_extract_city_from_header l ∈ ta)

/-- `extract_city_block` from `city_extract.py`. -/
def extract_city_block (text : Str) (target_city : Str) : Str :=
  let lines := pySplitlines text
  let ta := targetAliasList target_city
  match findStartIdx (blockStartPred ta) lines with
  | none => []
  | some start =>
    let endIdx := start + 1 + findBoundary (blockEndPred ta) (lines.drop (start + 1))
    pyStrip (joinNL ((lines.drop start).take (endIdx - start)))

/-- A Telegram message entity as read by
`extract_inline_hh_links_from_entities`: `url`, `offset`, `length`
attributes (`int(...)` already applied, so offsets are integers). -/
structure TgEntity where
  url : Str
  offset : Int
  length : Int

/-- The UTF-16-offset → native-index table of
`extract_inline_hh_links_from_entities`, as the partial function it
tabulates: walking the text, each code point advances the UTF-16 position
by 2 units when it is astral and 1 otherwise; the final position maps to
the text length.  A query landing between the two units of an astral code
point hits no table entry. -/
def utf16ToIdx (l : Str) (u : Nat) : Option Nat :=
  match u, l with
  | 0, _ => some 0
  | _ + 1, [] => none
  | u + 1, c :: cs =>
    if c.toNat > 0xFFFF then
      if u = 0 then none else (utf16ToIdx cs (u - 1)).map (· + 1)
    else (utf16ToIdx cs u).map (· + 1)

/-- `_utf16_slice` from `extract_inline_hh_links_from_entities`. -/
def utf16Slice (source : Str) (offset len : Nat) : Str :=
  match utf16ToIdx source offset, utf16ToIdx source (offset + len) with
  | some s, some e => (source.drop s).take (e - s)
  | _, _ => []

/-- Assignment into the `links_by_title` dict (modelled as a function). -/
def dictInsert (m : Str → Option Str) (k v : Str) : Str → Option Str :=
  fun x => if x = k then some v else m x

/-- The entity loop of `extract_inline_hh_links_from_entities`. -/
def linksLoop (text : Str) : List TgEntity → (Str → Option Str) → (Str → Option Str)
  | [], m => m
  | e :: es, m =>
    if (searchLink e.url).isNone then linksLoop text es m
    else if e.offset < 0 ∨ e.length ≤ 0 then linksLoop text es m
    else
      let visible := pyStrip (utf16Slice text e.offset.toNat e.length.toNat)
      if visible.isEmpty then linksLoop text es m
      else linksLoop text es (dictInsert m (_normalize_wording visible) e.url)

/-- `extract_inline_hh_links_from_entities` from `city_extract.py` — the
returned dict is modelled as a lookup function. -/
def extract_inline_hh_links_from_entities (text : Str) (entities : Option (List TgEntity)) :
    Str → Option Str :=
  match entities with
  | none => fun _ => none
  | some es =>
    if text.isEmpty || es.isEmpty then fun _ => none
    else linksLoop text es fun _ => none

/-- The `VacancyItem` dataclass. -/
structure VacancyItem where
  title : Str
  link : Str
  company : Str
deriving DecidableEq

/-- The `VacancyParseResult` dataclass (`selected_items`, `detected_items`). -/
structure VacancyParseResult where
  selected_items : List VacancyItem
  detected_items : Nat
deriving DecidableEq

/-- The mutable state of the two scanning loops: `selected_items`,
`detected_items`, `current_title`, `current_is_remote`. -/
structure ScanState where
  sel : List VacancyItem
  det : Nat
  cur : Str
  rem : Bool
deriving DecidableEq

/-- The non-empty stripped lines used by both parsers
(`[ln.strip() for ln in t.splitlines() if ln.strip()]`). -/
def nonemptyStrippedLines (t : Str) : List Str :=
  ((pySplitlines t).map pyStrip).filter fun l => !l.isEmpty

/-- One iteration of `parse_spb_vacancies`' line loop: how one line
updates the scan state. -/
def spbStep (company : Str) (banned : List Str) (inline : Str → Option Str)
    (line : Str) (st : ScanState) : ScanState :=
  match numberedRest line with
  | some raw_title =>
    let current_is_remote := _is_remote_work_line raw_title
    let title := pyStrip (splitFirstPart emDashSep raw_title)
    match inline (_normalize_wording title) with
    | some (c :: url) =>
      let det := if current_is_remote then st.det else st.det + 1
      let sel :=
        if !current_is_remote && !_is_banned_title title banned then
          st.sel ++ [⟨title, c :: url, company⟩]
        else st.sel
      ⟨sel, det, [], false⟩
    | _ => ⟨st.sel, st.det, title, current_is_remote⟩
  | none =>
    match searchLink line with
    | some url =>
      if !st.cur.isEmpty then
        let det := if st.rem then st.det else st.det + 1
        let sel :=
          if !st.rem && !_is_banned_title st.cur banned then
            st.sel ++ [⟨st.cur, url, company⟩]
          else st.sel
        ⟨sel, det, [], false⟩
      else st
    | none => st

/-- The line loop of `parse_spb_vacancies` (run on the block lines after
the city header). -/
def spbLoop (company : Str) (banned : List Str) (inline : Str → Option Str) :
    List Str → ScanState → List VacancyItem × Nat
  | [], st => (st.sel, st.det)
  | line :: rest, st =>
    spbLoop company banned inline rest (spbStep company banned inline line st)

/-- `parse_spb_vacancies` from `city_extract.py`. -/
def parse_spb_vacancies (text : Str) (banned : List Str) (inline : Str → Option Str) :
    VacancyParseResult :=
  let block := extract_city_block text spbTargetCity
  if block.isEmpty then ⟨[], 0⟩
  else
    let company := extract_company_name text
    let lines := nonemptyStrippedLines block
    let r := spbLoop company banned inline (lines.drop 1) ⟨[], 0, [], false⟩
    ⟨r.1, r.2⟩

/-- One iteration of `parse_remote_vacancies`' line loop. -/
def remoteStep (company : Str) (banned : List Str) (inline : Str → Option Str)
    (line : Str) (st : ScanState) : ScanState :=
  match numberedRest line with
  | some raw_title =>
    let title := pyStrip (splitFirstPart emDashSep raw_title)
    let current_is_remote := _is_remote_work_line raw_title
    match inline (_normalize_wording title) with
    | some (c :: url) =>
      if current_is_remote then
        let sel :=
          if !_is_banned_title title banned then
            st.sel ++ [⟨title, c :: url, company⟩]
          else st.sel
        ⟨sel, st.det + 1, [], false⟩
      else ⟨st.sel, st.det, title, current_is_remote⟩
    | _ => ⟨st.sel, st.det, title, current_is_remote⟩
  | none =>
    match searchLink line with
    | some url =>
      if !st.cur.isEmpty && st.rem then
        let sel :=
          if !_is_banned_title st.cur banned then
            st.sel ++ [⟨st.cur, url, company⟩]
          else st.sel
        ⟨sel, st.det + 1, [], false⟩
      else st
    | none => st

/-- The line loop of `parse_remote_vacancies` (run on every non-empty line
of the whole message). -/
def remoteLoop (company : Str) (banned : List Str) (inline : Str → Option Str) :
    List Str → ScanState → List VacancyItem × Nat
  | [], st => (st.sel, st.det)
  | line :: rest, st =>
    remoteLoop company banned inline rest (remoteStep company banned inline line st)

/-- `parse_remote_vacancies` from `city_extract.py`. -/
def parse_remote_vacancies (text : Str) (banned : List Str) (inline : Str → Option Str) :
    VacancyParseResult :=
  if text.isEmpty then ⟨[], 0⟩
  else
    let company := extract_company_name text
    let lines := nonemptyStrippedLines text
    let r := remoteLoop company banned inline lines ⟨[], 0, [], false⟩
    ⟨r.1, r.2⟩

/-- A multi-city message exercising headers, aliases, banned keywords and
a remote-work entry (used by the evaluation examples below). -/
def demoMsg : Str :=
  ("Компания: Рога\nМосква\n1. Инженер — хорошо\nСсылка: https://hh.ru/vacancy/1\n" ++
   "Питер\n1. Повар — ок\nhttps://hh.ru/vacancy/2\n2. Врач — плохо\n" ++
   "https://hh.ru/vacancy/3\n3. Кассир — удаленная работа\nhttps://hh.ru/vacancy/4\n" ++
   "Нижний Новгород\n1. Слесарь\nhttps://hh.ru/vacancy/5").toList


/-- The letter class `[A-Za-zА-Яа-яЁё]` of `CLAIM_RE` (`digest.py`). -/
def isClaimLetter (c : Char) : Bool :=
  ('A' ≤ c && c ≤ 'Z') || ('a' ≤ c && c ≤ 'z') ||
  (0x410 ≤ c.toNat && c.toNat ≤ 0x44F) || c.toNat = 0x401 || c.toNat = 0x451

/-- The `(?!\d)` lookahead at the front of `t`. -/
def notDigitAhead (t : Str) : Bool :=
  match t with
  | [] => true
  | c :: _ => !isDigitCh c

/-- The `-[A-Za-zА-Яа-яЁё]{1,4}` letter loop of one `CLAIM_RE` suffix
chunk, with regex backtracking order (longest letter run first); `next`
matches the remaining chunks. -/
def chunkLens (next : Str → Option Str) (rest : Str) : Nat → Option Str
  | 0 => none
  | l + 1 =>
    if l + 1 ≤ (rest.takeWhile isClaimLetter).length then
      match next (rest.drop (l + 1)) with
      | some s => some ('-' :: (rest.take (l + 1) ++ s))
      | none => chunkLens next rest l
    else chunkLens next rest l

/-- The `(?:-[..]{1,4}){0,3}(?!\d)` tail of `CLAIM_RE`, with regex
backtracking order (a further chunk is preferred over stopping). -/
def matchChunks : Nat → Str → Option Str
  | 0, t => if notDigitAhead t then some [] else none
  | fuel + 1, t =>
    (match t with
     | c :: rest =>
       if c = '-' then chunkLens (fun s => matchChunks fuel s) rest 4 else none
     | [] => none).orElse fun _ => if notDigitAhead t then some [] else none

/-- `CLAIM_RE` attempted at one position (the `(?<!\d)` lookbehind is
checked by the caller): exactly 5 digits, then the suffix chunks. -/
def matchClaimAt (s : Str) : Option Str :=
  let d5 := s.take 5
  if d5.length = 5 && d5.all isDigitCh then
    (matchChunks 3 (s.drop 5)).map fun cs => d5 ++ cs
  else none

/-- `CLAIM_RE.search`: tries every position left to right; `prev` is the
preceding character, for the `(?<!\d)` lookbehind. -/
def claimSearch (prev : Option Char) : Str → Option Str
  | [] => none
  | c :: cs =>
    (if (prev.map isDigitCh).getD false then none else matchClaimAt (c :: cs)).orElse
      fun _ => claimSearch (some c) cs

/-- `_extract_claim` from `digest.py`: first `CLAIM_RE` match in the
subject, or None. -/
def _extract_claim (subject : Str) : Option Str := claimSearch none subject


/-- One processed e-mail as the correlator sees it: its `uid` (the unique,
increasing sequence number) and its subject. -/
structure MailItem where
  uid : Nat
  subject : Str
deriving DecidableEq

/-- `claim_map.setdefault(claim_id, []).append(item)`: appends to the
entry of `k`, creating the entry at the end (Python dicts preserve key
insertion order). -/
def mapAppend (k : Str) (x : MailItem) :
    List (Str × List MailItem) → List (Str × List MailItem)
  | [] => [(k, [x])]
  | (q, xs) :: rest =>
    if q = k then (q, xs ++ [x]) :: rest else (q, xs) :: mapAppend k x rest

/-- The routing loop of `run_digest`: each item goes to its claim's group
(per `_extract_claim` of the subject) or to `other_items`. -/
def routeLoop : List MailItem → List (Str × List MailItem) → List MailItem →
    List (Str × List MailItem) × List MailItem
  | [], m, o => (m, o)
  | it :: rest, m, o =>
    match _extract_claim it.subject with
    | some c => routeLoop rest (mapAppend c it m) o
    | none => routeLoop rest m (o ++ [it])

/-- A `claim_group` dict of `run_digest`: `claim_id`, `items`, `last_uid`. -/
structure ClaimGroup where
  claim_id : Str
  items : List MailItem
  last_uid : Nat
deriving DecidableEq

/-- `sorted(items, key=lambda x: x["uid"])` — Python's sort is stable,
which `List.insertionSort` with `≤` on the key reproduces. -/
def sortItemsByUid (l : List MailItem) : List MailItem :=
  l.insertionSort fun a b => a.uid ≤ b.uid

/-- `run_digest`'s group construction and presentation ordering
(`digest.py` lines 158-168): one group per claim id in insertion order,
each group's items sorted ascending by uid, ranked by its last (maximal)
uid; groups sorted by rank descending (stable, `reverse=True`); the other
items sorted ascending by uid. -/
def correlate (batch : List MailItem) : List ClaimGroup × List MailItem :=
  let mo := routeLoop batch [] []
  let groups := mo.1.map fun p =>
    let sorted := sortItemsByUid p.2
    ⟨p.1, sorted, (match sorted.getLast? with | some x => x.uid | none => 0)⟩
  (groups.insertionSort fun g h => g.last_uid ≥ h.last_uid,
   mo.2.insertionSort fun a b => a.uid ≤ b.uid)

/-- A JSON value as produced by `json.loads` (numbers restricted to the
integers that the counters store). -/
inductive PyJson where
  | null
  | bool (b : Bool)
  | num (n : Int)
  | str (s : Str)
  | arr (l : List PyJson)
  | obj (fields : List (Str × PyJson))

/-- Key lookup in a parsed JSON object; `json.loads` keeps the last
occurrence of a duplicated key, as a Python dict does. -/
def jsonLookup (k : Str) : List (Str × PyJson) → Option PyJson
  | [] => none
  | (q, v) :: rest =>
    match jsonLookup k rest with
    | some w => some w
    | none => if q = k then some v else none

/-- `dict.get(k)` (None when the value is not a dict or the key is absent). -/
def PyJson.get (v : PyJson) (k : Str) : Option PyJson :=
  match v with
  | .obj fields => jsonLookup k fields
  | _ => none

/-- `isinstance(v, dict)`. -/
def PyJson.isDict : PyJson → Bool
  | .obj _ => true
  | _ => false

/-- Python truthiness of a JSON value (for `stats.get("claims") or {}`). -/
def PyJson.truthy : PyJson → Bool
  | .null => false
  | .bool b => b
  | .num n => decide (n ≠ 0)
  | .str s => !s.isEmpty
  | .arr l => !l.isEmpty
  | .obj f => !f.isEmpty

/-- Numeric value of a non-empty all-digit string. -/
def digitsVal (ds : Str) : Option Int :=
  if !ds.isEmpty && ds.all isDigitCh then
    some (ds.foldl (fun acc c => acc * 10 + ((c.toNat - '0'.toNat : Nat) : Int)) 0)
  else none

/-- `int(s)` on a string: optional sign and a non-empty ASCII digit run,
after stripping whitespace (underscore grouping is not modelled). -/
def pyIntOfStr (s : Str) : Option Int :=
  match pyStrip s with
  | '+' :: ds => digitsVal ds
  | '-' :: ds => (digitsVal ds).map fun n => -n
  | ds => digitsVal ds

/-- `int(v)` on a JSON value: ints and bools convert, int-parseable
strings convert, everything else raises (None is the raise). -/
def pyInt : PyJson → Option Int
  | .num n => some n
  | .bool b => some (if b then 1 else 0)
  | .str s => pyIntOfStr s
  | _ => none

/-- Outcome of `kv_get("daily_stats")` followed by `json.loads`: the row
is absent or empty (`if not row`), the stored text fails to parse, or it
parses to a JSON value.  (sqlite and the JSON decoder are the standard
library; only their observable outcome matters to `get_today_daily_stats`.) -/
inductive StoredValue where
  | absent
  | unparseable
  | value (v : PyJson)

/-- The dict returned by `get_today_daily_stats`. -/
structure DailyStats where
  date : Str
  total : Int
  other : Int
  claims : List (Str × Int)
deriving DecidableEq

/-- The all-zero fallback `{date: today, total: 0, other: 0, claims: {}}`. -/
def zeroStats (dateKey : Str) : DailyStats := ⟨dateKey, 0, 0, []⟩

/-- The Python comparison `stats.get("date") == date_key` (a JSON value
or None against a string): true only for exactly that string. -/
def dateMatches (v : Option PyJson) (dateKey : Str) : Bool :=
  match v with
  | some (.str s) => decide (s = dateKey)
  | _ => false

/-- The `normalized_claims` loop of `get_today_daily_stats`: `int(cnt)`
per entry; a non-convertible value raises. -/
def normClaims : List (Str × PyJson) → Option (List (Str × Int))
  | [] => some []
  | (k, v) :: rest =>
    match pyInt v, normClaims rest with
    | some n, some tail => some ((k, n) :: tail)
    | _, _ => none

/-- `get_today_daily_stats` from `db.py`.  `dateKey` is
`_today_key(timezone)` — the current date in the configured timezone; a
`.error` result models an uncaught exception (the `int(...)` conversions
are not guarded in the source). -/
def get_today_daily_stats (dateKey : Str) (stored : StoredValue) : Except Unit DailyStats :=
  match stored with
  | .absent => .ok (zeroStats dateKey)
  | .unparseable => .ok (zeroStats dateKey)
  | .value stats =>
    if !stats.isDict then .ok (zeroStats dateKey)
    else if !dateMatches (stats.get "date".toList) dateKey then .ok (zeroStats dateKey)
    else
      let claims0 := (stats.get "claims".toList).getD .null
      let claims1 := if claims0.truthy then claims0 else .obj []
      let fields := match claims1 with | .obj fs => fs | _ => []
      match normClaims fields,
            (match stats.get "total".toList with | some v => pyInt v | none => some 0),
            (match stats.get "other".toList with | some v => pyInt v | none => some 0) with
      | some cs, some t, some o => .ok ⟨dateKey, t, o, cs⟩
      | _, _, _ => .error ()


/-- Spec §3 "ListingEntry": one numbered item that reached link
resolution — title, resolved link, remote-work flag.  Reference model for
stating which entries each parsing mode counts and selects. -/
structure ListingEntry where
  title : Str
  link : Str
  remote : Bool
deriving DecidableEq

/-- Spec §3 ListingEntry lifecycle over the non-empty stripped lines: a
numbered line opens an entry (finalised at once on an inline-link hit); a
link line finalises the pending entry; a numbered line replaces any
pending entry.  Collects every finalised entry with its remote flag,
before any remote-work or banned-keyword gating. -/
def listingEntries (inline : Str → Option Str) (pending : Str × Bool) :
    List Str → List ListingEntry
  | [] => []
  | line :: rest =>
    match numberedRest line with
    | some raw_title =>
      let isRem := _is_remote_work_line raw_title
      let title := pyStrip (splitFirstPart emDashSep raw_title)
      match inline (_normalize_wording title) with
      | some (c :: url) => ⟨title, c :: url, isRem⟩ :: listingEntries inline ([], false) rest
      | _ => listingEntries inline (title, isRem) rest
    | none =>
      match searchLink line with
      | some url =>
        if !pending.1.isEmpty then
          ⟨pending.1, url, pending.2⟩ :: listingEntries inline ([], false) rest
        else listingEntries inline pending rest
      | none => listingEntries inline pending rest

/-- Number of UTF-16 code units of a string (astral code points take two). -/
def utf16Len (l : Str) : Nat :=
  (l.map fun c => if c.toNat > 0xFFFF then 2 else 1).sum

/-- Spec-side (claim C7 wording): position `i` of the subject starts a
token of exactly 5 digits not adjacent to other digits. -/
def eligibleAtB (subj : Str) (i : Nat) : Bool :=
  (match (subj.take i).getLast? with
   | none => true
   | some ch => !isDigitCh ch) &&
  decide (((subj.drop i).take 5).length = 5) &&
  ((subj.drop i).take 5).all isDigitCh &&
  notDigitAhead ((subj.drop i).drop 5)

/-- Spec-side (claim C7 wording): `s` consists of at most `fuel` suffix
chunks, each a hyphen followed by 1 to 4 letters. -/
def chunksShape : Nat → Str → Bool
  | _, [] => true
  | 0, _ :: _ => false
  | fuel + 1, c :: rest =>
    c = '-' && decide (1 ≤ (rest.takeWhile isClaimLetter).length) &&
    decide ((rest.takeWhile isClaimLetter).length ≤ 4) &&
    chunksShape fuel (rest.drop (rest.takeWhile isClaimLetter).length)

/-- Totality of the item ordering key (uid) used by `sortItemsByUid`. -/
instance : IsTotal MailItem fun a b => a.uid ≤ b.uid :=
  ⟨fun a b => Nat.le_total a.uid b.uid⟩

/-- Transitivity of the item ordering key (uid). -/
instance : IsTrans MailItem fun a b => a.uid ≤ b.uid :=
  ⟨fun _ _ _ => Nat.le_trans⟩

/-- Totality of the group ordering key (rank, descending). -/
instance : IsTotal ClaimGroup fun g h => g.last_uid ≥ h.last_uid :=
  ⟨fun a b => (Nat.le_total b.last_uid a.last_uid).imp id id⟩

/-- Transitivity of the group ordering key (rank, descending). -/
instance : IsTrans ClaimGroup fun g h => g.last_uid ≥ h.last_uid :=
  ⟨fun _ _ _ hab hbc => le_trans hbc hab⟩

/-!  ## Theorems  -/

example : cityHeaderMatch "Санкт-Петербург:".toList = some "Санкт-Петербург".toList := by
  decide
example : cityHeaderCountMatch "Питер (3):".toList = some "Питер ".toList := by decide
example : cityHeaderMatch "Питер (3):".toList = none := by decide
example : _extract_city_from_header "  СПБ (12) ".toList = "спб".toList := by decide
example : searchLink "см. https://hh.ru/vacancy/123456 тут".toList
    = some "https://hh.ru/vacancy/123456".toList := by decide
example : searchLink "HTTP://WWW.HH.RU/vacancy/77".toList
    = some "HTTP://WWW.HH.RU/vacancy/77".toList := by decide
example : searchLink "https://hh.ru/vacancy/ abc".toList = none := by decide
example : numberedRest "12.  Повар — от 100".toList = some "Повар — от 100".toList := by
  decide
example : numberedRest "12.Повар".toList = none := by decide
example : pyStrip (splitFirstPart emDashSep "Повар — от 100".toList) = "Повар".toList := by
  decide
example : _is_banned_title "Старший ВРАЧ-терапевт".toList DEFAULT_BANNED_KEYWORDS = true := by
  decide
example : _is_banned_title "Инженер".toList DEFAULT_BANNED_KEYWORDS = false := by decide
example : _is_remote_work_line "Повар — Удалённая работа".toList = true := by decide
example : extract_company_name "шапка\n Компания:  ACME Corp  \nхвост".toList
    = "ACME Corp".toList := by decide
example : extract_company_name "нет ничего".toList = [] := by decide
example : pySplitlines "a\n\nb\n".toList = ["a".toList, [], "b".toList] := by decide
example :
    extract_city_block demoMsg spbTargetCity =
      ("Питер\n1. Повар — ок\nhttps://hh.ru/vacancy/2\n2. Врач — плохо\n" ++
       "https://hh.ru/vacancy/3\n3. Кассир — удаленная работа\nhttps://hh.ru/vacancy/4").toList := by
  decide
example :
    parse_spb_vacancies demoMsg DEFAULT_BANNED_KEYWORDS (fun _ => none) =
      ⟨[⟨"Повар".toList, "https://hh.ru/vacancy/2".toList, "Рога".toList⟩], 2⟩ := by
  decide
example :
    parse_remote_vacancies demoMsg DEFAULT_BANNED_KEYWORDS (fun _ => none) =
      ⟨[⟨"Кассир".toList, "https://hh.ru/vacancy/4".toList, "Рога".toList⟩], 1⟩ := by
  decide
example : _extract_claim "Re: заявка 12345-АБ-КЗ".toList = some "12345-АБ-КЗ".toList := by
  decide
example : _extract_claim "a123456b 54321".toList = some "54321".toList := by decide
example : _extract_claim "12345-abcd5".toList = some "12345-abc".toList := by decide
example : _extract_claim "12345-ab-cd-ef-gh".toList = some "12345-ab-cd-ef".toList := by
  decide
example : _extract_claim "без номера 1234 и 123456".toList = none := by decide
example :
    get_today_daily_stats "2026-10-12".toList
      (.value (.obj [("date".toList, .str "2026-10-12".toList),
                     ("total".toList, .num 7), ("other".toList, .num 2),
                     ("claims".toList, .obj [("12345".toList, .num 5)])])) =
      .ok ⟨"2026-10-12".toList, 7, 2, [("12345".toList, 5)]⟩ := rfl
example :
    get_today_daily_stats "2026-10-12".toList
      (.value (.obj [("date".toList, .str "2026-10-11".toList),
                     ("total".toList, .null)])) =
      .ok (zeroStats "2026-10-12".toList) := rfl
example :
    get_today_daily_stats "2026-10-12".toList
      (.value (.obj [("date".toList, .str "2026-10-12".toList),
                     ("total".toList, .null)])) = .error () := rfl

theorem spbStep_le (company : Str) (banned : List Str) (inline : Str → Option Str)
    (line : Str) (st : ScanState) :
    (spbStep company banned inline line st).sel.length + st.det ≤
      (spbStep company banned inline line st).det + st.sel.length := by
  unfold spbStep
  dsimp only
  (repeat' split) <;> simp_all +arith [List.length_append]

theorem remoteStep_le (company : Str) (banned : List Str) (inline : Str → Option Str)
    (line : Str) (st : ScanState) :
    (remoteStep company banned inline line st).sel.length + st.det ≤
      (remoteStep company banned inline line st).det + st.sel.length := by
  unfold remoteStep
  dsimp only
  (repeat' split) <;> simp_all +arith [List.length_append]

theorem spbLoop_le (company : Str) (banned : List Str) (inline : Str → Option Str) :
    ∀ (lines : List Str) (st : ScanState),
      (spbLoop company banned inline lines st).1.length + st.det ≤
        (spbLoop company banned inline lines st).2 + st.sel.length
  | [], st => by simp only [spbLoop]; omega
  | line :: rest, st => by
    have h1 := spbLoop_le company banned inline rest (spbStep company banned inline line st)
    have h2 := spbStep_le company banned inline line st
    simp only [spbLoop]
    omega

theorem remoteLoop_le (company : Str) (banned : List Str) (inline : Str → Option Str) :
    ∀ (lines : List Str) (st : ScanState),
      (remoteLoop company banned inline lines st).1.length + st.det ≤
        (remoteLoop company banned inline lines st).2 + st.sel.length
  | [], st => by simp only [remoteLoop]; omega
  | line :: rest, st => by
    have h1 := remoteLoop_le company banned inline rest (remoteStep company banned inline line st)
    have h2 := remoteStep_le company banned inline line st
    simp only [remoteLoop]
    omega

/-- C1: for every input text, banned-keyword tuple and inline title-link
map, both parsing modes return at most as many selected items as their
detected count: `len(selected_items) ≤ detected_items` for
`parse_spb_vacancies` and `parse_remote_vacancies`. -/
theorem selected_le_detected (text : Str) (banned : List Str) (inline : Str → Option Str) :
    (parse_spb_vacancies text banned inline).selected_items.length ≤
      (parse_spb_vacancies text banned inline).detected_items ∧
    (parse_remote_vacancies text banned inline).selected_items.length ≤
      (parse_remote_vacancies text banned inline).detected_items := by
  constructor
  · unfold parse_spb_vacancies
    dsimp only
    split
    · simp
    · have h := spbLoop_le (extract_company_name text) banned inline
        ((nonemptyStrippedLines (extract_city_block text spbTargetCity)).drop 1)
        ⟨[], 0, [], false⟩
      simpa using h
  · unfold parse_remote_vacancies
    dsimp only
    split
    · simp
    · have h := remoteLoop_le (extract_company_name text) banned inline
        (nonemptyStrippedLines text) ⟨[], 0, [], false⟩
      simpa using h
example : pyStrip "  ab c  ".toList = "ab c".toList := by decide
example : _normalize_city "  Санкт-Петербург ".toList = "санкт-петербург".toList := by
  decide
example : _normalize_wording "Ёжик  в tumanе".toList = "ежик в tumanе".toList := by
  decide


theorem spbStep_sel_all (company : Str) (banned : List Str) (inline : Str → Option Str)
    (line : Str) (st : ScanState)
    (h : st.sel.all (fun it => !_is_banned_title it.title banned) = true) :
    ((spbStep company banned inline line st).sel).all
      (fun it => !_is_banned_title it.title banned) = true := by
  unfold spbStep
  dsimp only
  (repeat' split) <;> simp_all [List.all_append]

theorem remoteStep_sel_all (company : Str) (banned : List Str) (inline : Str → Option Str)
    (line : Str) (st : ScanState)
    (h : st.sel.all (fun it => !_is_banned_title it.title banned) = true) :
    ((remoteStep company banned inline line st).sel).all
      (fun it => !_is_banned_title it.title banned) = true := by
  unfold remoteStep
  dsimp only
  (repeat' split) <;> simp_all [List.all_append]

theorem spbLoop_sel_all (company : Str) (banned : List Str) (inline : Str → Option Str) :
    ∀ (lines : List Str) (st : ScanState),
      st.sel.all (fun it => !_is_banned_title it.title banned) = true →
      ((spbLoop company banned inline lines st).1).all
        (fun it => !_is_banned_title it.title banned) = true
  | [], st, h => by simpa only [spbLoop] using h
  | line :: rest, st, h => by
    simp only [spbLoop]
    exact spbLoop_sel_all company banned inline rest _
      (spbStep_sel_all company banned inline line st h)

theorem remoteLoop_sel_all (company : Str) (banned : List Str) (inline : Str → Option Str) :
    ∀ (lines : List Str) (st : ScanState),
      st.sel.all (fun it => !_is_banned_title it.title banned) = true →
      ((remoteLoop company banned inline lines st).1).all
        (fun it => !_is_banned_title it.title banned) = true
  | [], st, h => by simpa only [remoteLoop] using h
  | line :: rest, st, h => by
    simp only [remoteLoop]
    exact remoteLoop_sel_all company banned inline rest _
      (remoteStep_sel_all company banned inline line st h)

/-- C6: a title is excluded by the banned-keyword filter iff its
normalized form (trimmed, lower-cased, whitespace-collapsed, `ё` folded to
`е`) contains the normalized form of some banned keyword that is not
empty or whitespace-only, as a substring (no word boundaries); and
neither parsing mode ever selects an item with a banned title. -/
theorem banned_title_substring (title : Str) (banned : List Str) (text : Str)
    (inline : Str → Option Str) :
    (_is_banned_title title banned = true ↔
      ∃ w ∈ banned, pyStrip w ≠ [] ∧ _normalize_wording w <:+: _normalize_wording title) ∧
    ((parse_spb_vacancies text banned inline).selected_items.all
      (fun it => !_is_banned_title it.title banned) = true) ∧
    ((parse_remote_vacancies text banned inline).selected_items.all
      (fun it => !_is_banned_title it.title banned) = true) := by
  refine ⟨?_, ?_, ?_⟩
  · unfold _is_banned_title
    simp only [List.any_eq_true, Bool.and_eq_true, inStr]
    constructor
    · rintro ⟨w, hw, hne, hin⟩
      exact ⟨w, hw, by simpa using hne, of_decide_eq_true hin⟩
    · rintro ⟨w, hw, hne, hin⟩
      exact ⟨w, hw, by simpa using hne, decide_eq_true hin⟩
  · unfold parse_spb_vacancies
    dsimp only
    split
    · simp
    · exact spbLoop_sel_all _ banned inline _ _ rfl
  · unfold parse_remote_vacancies
    dsimp only
    split
    · simp
    · exact remoteLoop_sel_all _ banned inline _ _ rfl

/-- C9 counterexample: a persisted value that is a JSON dict stamped with
the current date but whose `total` is null (a corrupted shape) makes
`get_today_daily_stats` raise (`int(None)`) instead of returning the
all-zero structure. -/
theorem daily_stats_cex :
    get_today_daily_stats "2026-10-12".toList
      (.value (.obj [("date".toList, .str "2026-10-12".toList),
                     ("total".toList, .null)])) = .error () := rfl

/-- C9 (amended): `get_today_daily_stats` returns the all-zero structure
for the current date when the stored value is absent, not parseable as
JSON, not a dict, or stamped with a different date; a dict stamped with
the current date whose counter values are not int-convertible raises
instead. -/
theorem daily_stats_fallback (dateKey : Str) (stored : StoredValue)
    (h : stored = .absent ∨ stored = .unparseable ∨
      ∃ v, stored = .value v ∧
        (v.isDict = false ∨ dateMatches (v.get "date".toList) dateKey = false)) :
    get_today_daily_stats dateKey stored = .ok (zeroStats dateKey) := by
  rcases h with h | h | ⟨v, h, hv⟩ <;> subst h
  · rfl
  · rfl
  · unfold get_today_daily_stats
    rcases hv with hv | hv
    · simp [hv]
    · simp only [hv]
      split <;> rfl

/-- Witness for C9's amended theorem: a stored JSON array (not a dict)
falls back to the all-zero structure. -/
theorem daily_stats_fallback_witness :
    get_today_daily_stats "2026-10-12".toList (.value (.arr [])) =
      .ok (zeroStats "2026-10-12".toList) :=
  daily_stats_fallback _ _ (Or.inr (Or.inr ⟨_, rfl, Or.inl rfl⟩))

/-- C10: in both parsing modes a numbered line overwrites whatever entry
is pending: the scan result is independent of the pending title and
remote flag, so the discarded pending entry is never counted in
`detected_items`, never appended to `selected_items`, and only the entry
most recently started can be finalised by a later link line. -/
theorem pending_entry_discarded (company : Str) (banned : List Str)
    (inline : Str → Option Str) (line : Str) (rest : List Str)
    (h : (numberedRest line).isSome = true)
    (sel : List VacancyItem) (det : Nat) (t1 t2 : Str) (r1 r2 : Bool) :
    spbLoop company banned inline (line :: rest) ⟨sel, det, t1, r1⟩ =
      spbLoop company banned inline (line :: rest) ⟨sel, det, t2, r2⟩ ∧
    remoteLoop company banned inline (line :: rest) ⟨sel, det, t1, r1⟩ =
      remoteLoop company banned inline (line :: rest) ⟨sel, det, t2, r2⟩ := by
  obtain ⟨raw, hraw⟩ := Option.isSome_iff_exists.mp h
  constructor
  · simp only [spbLoop, spbStep, hraw]
  · simp only [remoteLoop, remoteStep, hraw]

/-- Witness for C10: with a numbered line next, two different pending
states produce the same result in both modes. -/
theorem pending_entry_discarded_witness :
    spbLoop [] DEFAULT_BANNED_KEYWORDS (fun _ => none)
        ["1. Повар".toList, "https://hh.ru/vacancy/5".toList]
        ⟨[], 0, "Старый".toList, true⟩ =
      spbLoop [] DEFAULT_BANNED_KEYWORDS (fun _ => none)
        ["1. Повар".toList, "https://hh.ru/vacancy/5".toList] ⟨[], 0, [], false⟩ ∧
    remoteLoop [] DEFAULT_BANNED_KEYWORDS (fun _ => none)
        ["1. Повар".toList, "https://hh.ru/vacancy/5".toList]
        ⟨[], 0, "Старый".toList, true⟩ =
      remoteLoop [] DEFAULT_BANNED_KEYWORDS (fun _ => none)
        ["1. Повар".toList, "https://hh.ru/vacancy/5".toList] ⟨[], 0, [], false⟩ :=
  pending_entry_discarded [] DEFAULT_BANNED_KEYWORDS (fun _ => none)
    "1. Повар".toList ["https://hh.ru/vacancy/5".toList] (by decide)
    [] 0 "Старый".toList [] true false

/-- C4: segmenting is alias-independent: whenever the two target
identities normalize into the known alias group, `extract_city_block`
returns the same block for either of them, on every message. -/
theorem alias_equivalence (text t1 t2 : Str)
    (h1 : _normalize_city t1 ∈ SPB_ALIASES) (h2 : _normalize_city t2 ∈ SPB_ALIASES) :
    extract_city_block text t1 = extract_city_block text t2 := by
  have hta : ∀ x, x ∈ targetAliasList t1 ↔ x ∈ targetAliasList t2 := by
    intro x
    unfold targetAliasList
    dsimp only
    rw [if_pos h1, if_pos h2]
    simp only [List.mem_cons]
    constructor
    · rintro (rfl | hx)
      · exact Or.inr h1
      · exact Or.inr hx
    · rintro (rfl | hx)
      · exact Or.inr h2
      · exact Or.inr hx
  have hs : blockStartPred (targetAliasList t1) = blockStartPred (targetAliasList t2) := by
    funext l
    unfold blockStartPred
    rw [decide_eq_decide.mpr (hta _)]
  have he : blockEndPred (targetAliasList t1) = blockEndPred (targetAliasList t2) := by
    funext l
    unfold blockEndPred
    rw [decide_eq_decide.mpr (hta _)]
  unfold extract_city_block
  dsimp only
  rw [hs, he]

/-- Witness for C4: the aliases "СПБ" and "Питер" segment the demo
message identically. -/
theorem alias_equivalence_witness :
    _normalize_city "СПБ".toList ∈ SPB_ALIASES ∧
    extract_city_block demoMsg "СПБ".toList = extract_city_block demoMsg "Питер".toList :=
  ⟨by decide, alias_equivalence demoMsg "СПБ".toList "Питер".toList (by decide) (by decide)⟩


theorem utf16Len_cons (c : Char) (l : Str) :
    utf16Len (c :: l) = (if c.toNat > 0xFFFF then 2 else 1) + utf16Len l := by
  simp [utf16Len]

theorem utf16Len_append (a b : Str) : utf16Len (a ++ b) = utf16Len a + utf16Len b := by
  simp [utf16Len]

theorem utf16Len_pos (b : Str) (hb : b ≠ []) : 0 < utf16Len b := by
  cases b with
  | nil => exact absurd rfl hb
  | cons c l =>
    rw [utf16Len_cons]
    split <;> omega

theorem utf16ToIdx_prefix (a rest : Str) :
    utf16ToIdx (a ++ rest) (utf16Len a) = some a.length := by
  induction a with
  | nil =>
    simp only [List.nil_append]
    have h0 : utf16Len [] = 0 := rfl
    rw [h0]
    simp [utf16ToIdx]
  | cons c a ih =>
    rw [List.cons_append, utf16Len_cons]
    by_cases hc : c.toNat > 0xFFFF
    · rw [if_pos hc]
      have h2 : 2 + utf16Len a = (utf16Len a + 1) + 1 := by omega
      rw [h2]
      simp only [utf16ToIdx]
      rw [if_pos hc, if_neg (Nat.succ_ne_zero _)]
      simp [ih]
    · rw [if_neg hc]
      have h1 : 1 + utf16Len a = utf16Len a + 1 := by omega
      rw [h1]
      simp only [utf16ToIdx]
      rw [if_neg hc]
      simp [ih]

theorem utf16Slice_correct (a b c : Str) :
    utf16Slice (a ++ b ++ c) (utf16Len a) (utf16Len b) = b := by
  have h1 : utf16ToIdx (a ++ b ++ c) (utf16Len a) = some a.length := by
    rw [List.append_assoc]
    exact utf16ToIdx_prefix a (b ++ c)
  have h2 : utf16ToIdx (a ++ b ++ c) (utf16Len a + utf16Len b) = some (a.length + b.length) := by
    rw [← utf16Len_append, ← List.length_append]
    exact utf16ToIdx_prefix (a ++ b) c
  unfold utf16Slice
  rw [h1, h2]
  dsimp only
  have hd : (a ++ b ++ c).drop a.length = b ++ c := by
    rw [List.append_assoc]
    exact List.drop_left a (b ++ c)
  rw [hd, Nat.add_sub_cancel_left]
  exact List.take_left b c

theorem linksLoop_skip (text : Str) (f : TgEntity)
    (hf : utf16ToIdx text f.offset.toNat = none ∨
          utf16ToIdx text (f.offset.toNat + f.length.toNat) = none) :
    ∀ (es1 es2 : List TgEntity) (m : Str → Option Str),
      linksLoop text (es1 ++ f :: es2) m = linksLoop text (es1 ++ es2) m := by
  have hslice : utf16Slice text f.offset.toNat f.length.toNat = [] := by
    unfold utf16Slice
    rcases hf with hf | hf
    · rw [hf]
    · rw [hf]
      cases utf16ToIdx text f.offset.toNat <;> rfl
  intro es1
  induction es1 with
  | nil =>
    intro es2 m
    simp only [List.nil_append, linksLoop]
    split
    · rfl
    · split
      · rfl
      · rw [hslice]
        rfl
  | cons g es1 ih =>
    intro es2 m
    simp only [List.cons_append, linksLoop]
    split
    · exact ih es2 m
    · split
      · exact ih es2 m
      · split
        · exact ih es2 m
        · exact ih es2 _

/-- C3: annotation spans in UTF-16 code units are mapped through the
UTF-16-offset → native-index table: a span covering exactly the middle
`b` of `text = a ++ b ++ c` (offsets measured in UTF-16 units, so astral
characters such as a leading emoji in `a` count twice) slices out exactly
`b` and registers `b`'s normalized visible text in the returned link map;
and an annotation whose offset or end lands on no table entry is dropped
alone — the remaining entities are still processed. -/
theorem inline_links_utf16 (a b c url : Str) (e f : TgEntity) (es1 es2 : List TgEntity)
    (hoff : e.offset = (utf16Len a : Int)) (hlen : e.length = (utf16Len b : Int))
    (hurl : e.url = url) (hlink : (searchLink url).isSome = true)
    (hb : pyStrip b ≠ [])
    (hf : utf16ToIdx (a ++ b ++ c) f.offset.toNat = none ∨
          utf16ToIdx (a ++ b ++ c) (f.offset.toNat + f.length.toNat) = none) :
    utf16Slice (a ++ b ++ c) (utf16Len a) (utf16Len b) = b ∧
    extract_inline_hh_links_from_entities (a ++ b ++ c) (some [e])
        (_normalize_wording (pyStrip b)) = some url ∧
    ∀ k, extract_inline_hh_links_from_entities (a ++ b ++ c) (some (es1 ++ f :: es2)) k =
      extract_inline_hh_links_from_entities (a ++ b ++ c) (some (es1 ++ es2)) k := by
  have hbne : b ≠ [] := fun h => hb (by simp [h, pyStrip])
  have htext : (a ++ b ++ c).isEmpty = false := by
    cases b with
    | nil => exact absurd rfl hbne
    | cons x l => simp
  refine ⟨utf16Slice_correct a b c, ?_, ?_⟩
  · have hu : (searchLink url).isNone = false := by
      obtain ⟨x, hx⟩ := Option.isSome_iff_exists.mp hlink
      rw [hx]
      rfl
    have hol : ¬(e.offset < 0 ∨ e.length ≤ 0) := by
      rw [hoff, hlen]
      push_neg
      refine ⟨Int.natCast_nonneg _, ?_⟩
      exact_mod_cast utf16Len_pos b hbne
    have hpe : (pyStrip b).isEmpty = false := by
      cases hps : pyStrip b
      · exact absurd hps hb
      · rfl
    have hsl : utf16Slice (a ++ (b ++ c)) (utf16Len a) (utf16Len b) = b := by
      rw [← List.append_assoc]
      exact utf16Slice_correct a b c
    have hlb : utf16Len b ≠ 0 := Nat.pos_iff_ne_zero.mp (utf16Len_pos b hbne)
    have hna : ¬((utf16Len a : Int) < 0) := not_lt.mpr (Int.natCast_nonneg _)
    simp [hna, extract_inline_hh_links_from_entities, linksLoop, dictInsert, htext, hurl, hu,
      hol, hoff, hlen, Int.toNat_natCast, hsl, hpe, hbne, hlb, hb]
  · intro k
    have hne1 : (es1 ++ f :: es2).isEmpty = false := by
      cases es1 <;> rfl
    have hskip := linksLoop_skip (a ++ b ++ c) f hf es1 es2 (fun _ => none)
    cases h12 : (es1 ++ es2).isEmpty
    · simp only [extract_inline_hh_links_from_entities, htext, hne1, h12, Bool.false_or,
        Bool.false_eq_true, if_false]
      rw [hskip]
    · have h12e : es1 ++ es2 = [] := by
        cases hc : es1 ++ es2
        · rfl
        · rw [hc] at h12
          cases h12
      simp only [extract_inline_hh_links_from_entities, htext, hne1, h12, Bool.false_or,
        Bool.false_eq_true, if_false, if_true]
      rw [hskip, h12e]
      rfl


/-- Witness for C3: a leading fire emoji (an astral code point) shifts
UTF-16 offsets by two; the annotation with offset 3 still resolves to the
visible title, and an annotation whose offset lands inside the surrogate
pair is dropped while the good one is still processed. -/
theorem inline_links_utf16_witness :
    utf16Slice ("🔥 ".toList ++ "Повар".toList ++ []) (utf16Len "🔥 ".toList)
        (utf16Len "Повар".toList) = "Повар".toList ∧
    extract_inline_hh_links_from_entities ("🔥 ".toList ++ "Повар".toList ++ [])
        (some [⟨"https://hh.ru/vacancy/1".toList, 3, 5⟩])
        (_normalize_wording (pyStrip "Повар".toList)) =
      some "https://hh.ru/vacancy/1".toList ∧
    extract_inline_hh_links_from_entities ("🔥 ".toList ++ "Повар".toList ++ [])
        (some ([] ++ (⟨"https://hh.ru/vacancy/2".toList, 1, 2⟩ : TgEntity) ::
          [⟨"https://hh.ru/vacancy/1".toList, 3, 5⟩])) "повар".toList =
      extract_inline_hh_links_from_entities ("🔥 ".toList ++ "Повар".toList ++ [])
        (some ([] ++ [⟨"https://hh.ru/vacancy/1".toList, 3, 5⟩])) "повар".toList := by
  have h := inline_links_utf16 "🔥 ".toList "Повар".toList [] "https://hh.ru/vacancy/1".toList
      ⟨"https://hh.ru/vacancy/1".toList, 3, 5⟩ ⟨"https://hh.ru/vacancy/2".toList, 1, 2⟩
      [] [⟨"https://hh.ru/vacancy/1".toList, 3, 5⟩]
      (by decide) (by decide) rfl (by decide) (by decide) (Or.inl (by decide))
  exact ⟨h.1, h.2.1, h.2.2 "повар".toList⟩


theorem spbLoop_entries (company : Str) (banned : List Str) (inline : Str → Option Str) :
    ∀ (lines : List Str) (st : ScanState),
      spbLoop company banned inline lines st =
        (st.sel ++ (listingEntries inline (st.cur, st.rem) lines).filterMap
          (fun en => if !en.remote && !_is_banned_title en.title banned
            then some ⟨en.title, en.link, company⟩ else none),
         st.det + ((listingEntries inline (st.cur, st.rem) lines).filter
           fun en => !en.remote).length)
  | [], st => by simp [spbLoop, listingEntries]
  | line :: rest, st => by
    have ih := fun st' => spbLoop_entries company banned inline rest st'
    simp only [spbLoop, listingEntries]
    unfold spbStep
    cases hnum : numberedRest line with
    | some raw =>
      dsimp only
      cases hinl : inline (_normalize_wording (pyStrip (splitFirstPart emDashSep raw))) with
      | none =>
        rw [ih ⟨st.sel, st.det, pyStrip (splitFirstPart emDashSep raw),
          _is_remote_work_line raw⟩]
      | some v =>
        cases v with
        | nil =>
          rw [ih ⟨st.sel, st.det, pyStrip (splitFirstPart emDashSep raw),
            _is_remote_work_line raw⟩]
        | cons c0 url =>
          rw [ih ⟨_, _, [], false⟩]
          cases hr : _is_remote_work_line raw <;>
            cases hbn : _is_banned_title (pyStrip (splitFirstPart emDashSep raw)) banned <;>
              simp [hr, hbn, List.filterMap_cons, List.filter_cons] <;> omega
    | none =>
      dsimp only
      cases hlnk : searchLink line with
      | none => rw [ih st]
      | some url =>
        cases hcur : st.cur.isEmpty
        · simp only [hcur, Bool.not_false, if_true]
          rw [ih ⟨_, _, [], false⟩]
          have hc2 : (st.cur, st.rem).1.isEmpty = false := hcur
          cases hr : st.rem <;>
            cases hbn : _is_banned_title st.cur banned <;>
              simp [hr, hbn, hc2, List.filterMap_cons, List.filter_cons] <;> omega
        · simp only [hcur, Bool.not_true, Bool.false_eq_true, if_false]
          rw [ih st]


theorem listingEntries_stale (inline : Str → Option Str) :
    ∀ (rest : List Str) (t : Str),
      ((listingEntries inline (t, false) rest).filter fun en => en.remote) =
        ((listingEntries inline ([], false) rest).filter fun en => en.remote)
  | [], t => by simp [listingEntries]
  | line :: rest, t => by
    simp only [listingEntries]
    cases hnum : numberedRest line with
    | some raw => rfl
    | none =>
      dsimp only
      cases hlnk : searchLink line with
      | none => exact listingEntries_stale inline rest t
      | some url =>
        cases hcur : t.isEmpty
        · have hc2 : ((t, false) : Str × Bool).1.isEmpty = false := hcur
          simp only [hc2, Bool.not_false, if_true]
          have hc3 : (([], false) : Str × Bool).1.isEmpty = true := rfl
          simp only [hc3, Bool.not_true, Bool.false_eq_true, if_false]
          simp [List.filter_cons]
        · have ht : t = [] := by
            cases t
            · rfl
            · cases hcur
          subst ht
          rfl

theorem filterMap_remote_only (company : Str) (banned : List Str) :
    ∀ l : List ListingEntry,
      l.filterMap (fun en => if en.remote && !_is_banned_title en.title banned
        then some (⟨en.title, en.link, company⟩ : VacancyItem) else none) =
      (l.filter fun en => en.remote).filterMap
        (fun en => if en.remote && !_is_banned_title en.title banned
          then some (⟨en.title, en.link, company⟩ : VacancyItem) else none)
  | [] => by simp
  | en :: l => by
    have ihl := filterMap_remote_only company banned l
    simp only [List.filterMap_cons, List.filter_cons]
    cases hr : en.remote
    · simp only [hr, Bool.false_and, Bool.false_eq_true, if_false]
      exact ihl
    · simp only [hr, Bool.true_and, if_true, List.filterMap_cons]
      rw [ihl]

theorem remoteLoop_entries (company : Str) (banned : List Str) (inline : Str → Option Str) :
    ∀ (lines : List Str) (st : ScanState),
      remoteLoop company banned inline lines st =
        (st.sel ++ (listingEntries inline (st.cur, st.rem) lines).filterMap
          (fun en => if en.remote && !_is_banned_title en.title banned
            then some ⟨en.title, en.link, company⟩ else none),
         st.det + ((listingEntries inline (st.cur, st.rem) lines).filter
           fun en => en.remote).length)
  | [], st => by simp [remoteLoop, listingEntries]
  | line :: rest, ⟨sel, det, cur, rem⟩ => by
    have ih := fun st' => remoteLoop_entries company banned inline rest st'
    simp only [remoteLoop, listingEntries]
    unfold remoteStep
    dsimp only
    cases hnum : numberedRest line with
    | some raw =>
      dsimp only
      cases hinl : inline (_normalize_wording (pyStrip (splitFirstPart emDashSep raw))) with
      | none =>
        rw [ih ⟨sel, det, pyStrip (splitFirstPart emDashSep raw), _is_remote_work_line raw⟩]
      | some v =>
        cases v with
        | nil =>
          rw [ih ⟨sel, det, pyStrip (splitFirstPart emDashSep raw), _is_remote_work_line raw⟩]
        | cons c0 url =>
          cases hr : _is_remote_work_line raw
          · simp only [hr, Bool.false_eq_true, if_false]
            rw [ih ⟨sel, det, pyStrip (splitFirstPart emDashSep raw), false⟩]
            have key := listingEntries_stale inline rest (pyStrip (splitFirstPart emDashSep raw))
            have keyf :
                (listingEntries inline (pyStrip (splitFirstPart emDashSep raw), false)
                    rest).filterMap
                  (fun en => if en.remote && !_is_banned_title en.title banned
                    then some (⟨en.title, en.link, company⟩ : VacancyItem) else none) =
                (listingEntries inline ([], false) rest).filterMap
                  (fun en => if en.remote && !_is_banned_title en.title banned
                    then some (⟨en.title, en.link, company⟩ : VacancyItem) else none) := by
              rw [filterMap_remote_only company banned, key,
                ← filterMap_remote_only company banned]
            simp only [Prod.mk.injEq]
            refine ⟨?_, ?_⟩
            · simp only [List.filterMap_cons]
              simp only [Bool.false_and, Bool.false_eq_true, if_false]
              rw [keyf]
            · simp only [List.filter_cons]
              dsimp only
              simp only [Bool.false_eq_true, if_false]
              rw [key]
          · simp only [hr, if_true]
            rw [ih ⟨_, _, [], false⟩]
            cases hbn : _is_banned_title (pyStrip (splitFirstPart emDashSep raw)) banned <;>
              simp [hr, hbn, List.filterMap_cons, List.filter_cons] <;> omega
    | none =>
      dsimp only
      cases hlnk : searchLink line with
      | none => rw [ih ⟨sel, det, cur, rem⟩]
      | some url =>
        cases hcur : cur.isEmpty
        · cases hrem : rem
          · simp only [hcur, hrem, Bool.not_false, Bool.and_false, Bool.false_eq_true,
              if_false]
            rw [ih ⟨sel, det, cur, false⟩]
            have key := listingEntries_stale inline rest cur
            have keyf :
                (listingEntries inline (cur, false) rest).filterMap
                  (fun en => if en.remote && !_is_banned_title en.title banned
                    then some (⟨en.title, en.link, company⟩ : VacancyItem) else none) =
                (listingEntries inline ([], false) rest).filterMap
                  (fun en => if en.remote && !_is_banned_title en.title banned
                    then some (⟨en.title, en.link, company⟩ : VacancyItem) else none) := by
              rw [filterMap_remote_only company banned, key,
                ← filterMap_remote_only company banned]
            simp only [hcur, Bool.not_false, if_true, Prod.mk.injEq]
            refine ⟨?_, ?_⟩
            · simp only [List.filterMap_cons]
              simp only [Bool.false_and, Bool.false_eq_true, if_false]
              rw [keyf]
            · simp only [List.filter_cons]
              dsimp only
              simp only [Bool.false_eq_true, if_false]
              rw [key]
          · simp only [hcur, hrem, Bool.not_false, Bool.and_true, if_true]
            rw [ih ⟨_, _, [], false⟩]
            simp only [hcur, Bool.not_false, if_true]
            cases hbn : _is_banned_title cur banned <;>
              simp [hbn, List.filterMap_cons, List.filter_cons] <;> omega
        · simp only [hcur, Bool.not_true, Bool.false_and, Bool.false_eq_true, if_false]
          rw [ih ⟨sel, det, cur, rem⟩]

/-- C2 counterexample: in this message the single entry both is
remote-work and carries a banned keyword; whole-message mode therefore
selects nothing although the message's remote-work entry list is
non-empty — it does not select "exactly those remote-work items". -/
theorem remote_selects_exactly_cex :
    ¬ (((parse_remote_vacancies
          "Питер\n1. Врач — удаленная работа\nhttps://hh.ru/vacancy/9".toList
          DEFAULT_BANNED_KEYWORDS (fun _ => none)).selected_items.map VacancyItem.title) =
        ((listingEntries (fun _ => none) ([], false)
          (nonemptyStrippedLines
            "Питер\n1. Врач — удаленная работа\nhttps://hh.ru/vacancy/9".toList)).filter
          (fun en => en.remote)).map ListingEntry.title) := by
  decide

/-- C2 (amended): remote-work entries are excluded from the
section-scoped parse — `parse_spb_vacancies` counts exactly the
non-remote entries of the SPB block and selects exactly the non-remote,
non-banned ones — while `parse_remote_vacancies` on the identical message
counts exactly the remote-work entries of the whole message and selects
exactly those remote-work entries that also pass the banned-keyword
filter, and no others. -/
theorem remote_gating (text : Str) (banned : List Str) (inline : Str → Option Str) :
    (parse_spb_vacancies text banned inline).selected_items =
      (listingEntries inline ([], false)
        ((nonemptyStrippedLines (extract_city_block text spbTargetCity)).drop 1)).filterMap
        (fun en => if !en.remote && !_is_banned_title en.title banned
          then some ⟨en.title, en.link, extract_company_name text⟩ else none) ∧
    (parse_spb_vacancies text banned inline).detected_items =
      ((listingEntries inline ([], false)
        ((nonemptyStrippedLines (extract_city_block text spbTargetCity)).drop 1)).filter
          fun en => !en.remote).length ∧
    (parse_remote_vacancies text banned inline).selected_items =
      (listingEntries inline ([], false) (nonemptyStrippedLines text)).filterMap
        (fun en => if en.remote && !_is_banned_title en.title banned
          then some ⟨en.title, en.link, extract_company_name text⟩ else none) ∧
    (parse_remote_vacancies text banned inline).detected_items =
      ((listingEntries inline ([], false) (nonemptyStrippedLines text)).filter
        fun en => en.remote).length := by
  have hspb := spbLoop_entries (extract_company_name text) banned inline
    ((nonemptyStrippedLines (extract_city_block text spbTargetCity)).drop 1)
    ⟨[], 0, [], false⟩
  have hrem := remoteLoop_entries (extract_company_name text) banned inline
    (nonemptyStrippedLines text) ⟨[], 0, [], false⟩
  refine ⟨?_, ?_, ?_, ?_⟩
  · unfold parse_spb_vacancies
    dsimp only
    split
    · next hb =>
      have hb' : extract_city_block text spbTargetCity = [] := by
        simpa using hb
      simp [hb', nonemptyStrippedLines, pySplitlines, listingEntries]
    · rw [hspb]
      simp
  · unfold parse_spb_vacancies
    dsimp only
    split
    · next hb =>
      have hb' : extract_city_block text spbTargetCity = [] := by
        simpa using hb
      simp [hb', nonemptyStrippedLines, pySplitlines, listingEntries]
    · rw [hspb]
      simp
  · unfold parse_remote_vacancies
    dsimp only
    split
    · next ht =>
      have ht' : text = [] := by simpa using ht
      simp [ht', nonemptyStrippedLines, pySplitlines, listingEntries]
    · rw [hrem]
      simp
  · unfold parse_remote_vacancies
    dsimp only
    split
    · next ht =>
      have ht' : text = [] := by simpa using ht
      simp [ht', nonemptyStrippedLines, pySplitlines, listingEntries]
    · rw [hrem]
      simp

theorem getLast?_mem_list {α : Type _} {l : List α} {z : α} (h : l.getLast? = some z) :
    z ∈ l := by
  obtain ⟨hne, hz⟩ := List.mem_getLast?_eq_getLast (Option.mem_def.mpr h)
  rw [hz]
  exact List.getLast_mem hne

theorem mapAppend_nonempty (k : Str) (x : MailItem) :
    ∀ (m : List (Str × List MailItem)), (∀ p ∈ m, p.2 ≠ []) →
      ∀ p ∈ mapAppend k x m, p.2 ≠ []
  | [], _, p, hp => by
    simp only [mapAppend, List.mem_singleton] at hp
    subst hp
    simp
  | (q, xs) :: rest, h, p, hp => by
    simp only [mapAppend] at hp
    split at hp
    · rcases List.mem_cons.mp hp with rfl | hmem
      · have h1 := h (q, xs) (List.mem_cons_self _ _)
        simp_all
      · exact h p (List.mem_cons_of_mem _ hmem)
    · rcases List.mem_cons.mp hp with rfl | hmem
      · exact h (q, xs) (List.mem_cons_self _ _)
      · exact mapAppend_nonempty k x rest
          (fun r hr => h r (List.mem_cons_of_mem _ hr)) p hmem

theorem routeLoop_nonempty :
    ∀ (batch : List MailItem) (m : List (Str × List MailItem)) (o : List MailItem),
      (∀ p ∈ m, p.2 ≠ []) → ∀ p ∈ (routeLoop batch m o).1, p.2 ≠ []
  | [], _, _, h => h
  | it :: rest, m, o, h => by
    simp only [routeLoop]
    split
    · exact routeLoop_nonempty rest _ o (mapAppend_nonempty _ it m h)
    · exact routeLoop_nonempty rest m _ h

theorem routeLoop_others :
    ∀ (batch : List MailItem) (m : List (Str × List MailItem)) (o : List MailItem),
      (routeLoop batch m o).2 =
        o ++ batch.filter fun it => (_extract_claim it.subject).isNone
  | [], m, o => by simp [routeLoop]
  | it :: rest, m, o => by
    simp only [routeLoop, List.filter_cons]
    split
    · next c heq =>
      rw [routeLoop_others rest _ o, heq]
      rfl
    · next heq =>
      rw [routeLoop_others rest m _, heq]
      simp

theorem sorted_uid_le_getLast :
    ∀ (l : List MailItem), (l.Sorted fun a b => a.uid ≤ b.uid) →
      ∀ x ∈ l, ∀ z, l.getLast? = some z → x.uid ≤ z.uid
  | [], _, _, hx, _, _ => by cases hx
  | [a], _, x, hx, z, hz => by
    rcases List.mem_singleton.mp hx with rfl
    have haz : x = z := by simpa using hz
    subst haz
    exact Nat.le_refl _
  | a :: b :: l, h, x, hx, z, hz => by
    obtain ⟨ha, hl⟩ := List.sorted_cons.mp h
    rw [List.getLast?_cons_cons] at hz
    rcases List.mem_cons.mp hx with rfl | hx2
    · exact ha z (getLast?_mem_list hz)
    · exact sorted_uid_le_getLast (b :: l) hl x hx2 z hz

/-- C8: for every batch of processed items with unique sequence numbers,
the correlator's presentation order has every claim group's items sorted
ascending by uid, every group ranked by the maximum uid among its items
(the rank is an upper bound and is attained), the groups sorted by rank
descending, and the "other" bucket sorted ascending by uid. -/
theorem correlator_order (batch : List MailItem)
    (huniq : (batch.map MailItem.uid).Nodup) :
    (∀ g ∈ (correlate batch).1,
      ((g.items.map MailItem.uid).Sorted (· ≤ ·)) ∧
      (∀ x ∈ g.items, x.uid ≤ g.last_uid) ∧
      g.last_uid ∈ g.items.map MailItem.uid) ∧
    (((correlate batch).1.map ClaimGroup.last_uid).Sorted (· ≥ ·)) ∧
    (((correlate batch).2.map MailItem.uid).Sorted (· ≤ ·)) := by
  refine ⟨?_, ?_, ?_⟩
  · intro g hg
    unfold correlate at hg
    dsimp only at hg
    rw [(List.perm_insertionSort _ _).mem_iff] at hg
    obtain ⟨p, hp, hpg⟩ := List.mem_map.mp hg
    have hne : p.2 ≠ [] := routeLoop_nonempty batch [] [] (by simp) p hp
    have hperm : (sortItemsByUid p.2).Perm p.2 := List.perm_insertionSort _ _
    have hsne : sortItemsByUid p.2 ≠ [] := by
      intro hcon
      exact hne (List.Perm.eq_nil ((hcon ▸ hperm).symm))
    have hsor : (sortItemsByUid p.2).Sorted fun a b => a.uid ≤ b.uid :=
      List.sorted_insertionSort _ _
    have hz : (sortItemsByUid p.2).getLast? =
        some ((sortItemsByUid p.2).getLast hsne) :=
      List.getLast?_eq_getLast_of_ne_nil hsne
    subst hpg
    refine ⟨?_, ?_, ?_⟩
    · exact List.Pairwise.map MailItem.uid (fun a b hab => hab) hsor
    · intro x hx
      dsimp only at hx ⊢
      simp only [hz]
      exact sorted_uid_le_getLast _ hsor x hx _ hz
    · dsimp only
      simp only [hz]
      exact List.mem_map_of_mem MailItem.uid (List.getLast_mem hsne)
  · unfold correlate
    dsimp only
    exact List.Pairwise.map ClaimGroup.last_uid (fun a b hab => hab)
      (List.sorted_insertionSort _ _)
  · unfold correlate
    dsimp only
    exact List.Pairwise.map MailItem.uid (fun a b hab => hab)
      (List.sorted_insertionSort _ _)

/-- Witness for C8: five items — two sharing claim "12345-AB", one with
claim "67890", two with no claim — applied to the correlator. -/
theorem correlator_order_witness :
    (((correlate [⟨1, "12345-AB a".toList⟩, ⟨2, "12345-AB b".toList⟩,
        ⟨3, "67890".toList⟩, ⟨4, "hello".toList⟩, ⟨5, "world".toList⟩]).1.map
      ClaimGroup.last_uid).Sorted (· ≥ ·)) ∧
    (((correlate [⟨1, "12345-AB a".toList⟩, ⟨2, "12345-AB b".toList⟩,
        ⟨3, "67890".toList⟩, ⟨4, "hello".toList⟩, ⟨5, "world".toList⟩]).2.map
      MailItem.uid).Sorted (· ≤ ·)) ∧
    ((((⟨"12345-AB".toList, [⟨1, "12345-AB a".toList⟩, ⟨2, "12345-AB b".toList⟩], 2⟩ :
        ClaimGroup)).items.map MailItem.uid).Sorted (· ≤ ·)) := by
  have h := correlator_order
    [⟨1, "12345-AB a".toList⟩, ⟨2, "12345-AB b".toList⟩,
     ⟨3, "67890".toList⟩, ⟨4, "hello".toList⟩, ⟨5, "world".toList⟩] (by decide)
  refine ⟨h.2.1, h.2.2, ?_⟩
  exact (h.1 ⟨"12345-AB".toList, [⟨1, "12345-AB a".toList⟩, ⟨2, "12345-AB b".toList⟩], 2⟩
    (by decide)).1

theorem takeWhile_append_all {p : Char → Bool} :
    ∀ (xs ys : Str), (∀ c ∈ xs, p c = true) →
      (ys = [] ∨ ∃ d ds, ys = d :: ds ∧ p d = false) →
      (xs ++ ys).takeWhile p = xs
  | [], ys, _, hys => by
    rcases hys with rfl | ⟨d, ds, rfl, hd⟩
    · rfl
    · simp [List.takeWhile_cons, hd]
  | x :: xs, ys, hall, hys => by
    have hx : p x = true := hall x (List.mem_cons_self _ _)
    simp only [List.cons_append, List.takeWhile_cons, hx, if_true]
    rw [takeWhile_append_all xs ys (fun c hc => hall c (List.mem_cons_of_mem _ hc)) hys]

theorem take_letters {rest : Str} {k : Nat}
    (hk : k ≤ (rest.takeWhile isClaimLetter).length) :
    ∀ c ∈ rest.take k, isClaimLetter c = true := by
  intro c hc
  have hsplit := List.takeWhile_append_dropWhile isClaimLetter rest
  have : rest.take k = (rest.takeWhile isClaimLetter).take k := by
    conv_lhs => rw [← hsplit]
    exact List.take_append_of_le_length hk
  rw [this] at hc
  exact List.mem_takeWhile_imp (List.take_subset _ _ hc)

theorem chunkLens_sound (next : Str → Option Str) (rest : Str) :
    ∀ (lmax : Nat) (s : Str), chunkLens next rest lmax = some s →
      ∃ k, 1 ≤ k ∧ k ≤ lmax ∧ k ≤ (rest.takeWhile isClaimLetter).length ∧
        ∃ s2, next (rest.drop k) = some s2 ∧ s = '-' :: (rest.take k ++ s2)
  | 0, s, h => by cases h
  | l + 1, s, h => by
    unfold chunkLens at h
    split at h
    · next hrun =>
      split at h
      · next s2 hnext =>
        cases h
        exact ⟨l + 1, Nat.succ_le_succ (Nat.zero_le _), Nat.le_refl _, hrun,
          s2, hnext, rfl⟩
      · obtain ⟨k, h1, h2, h3, h4⟩ := chunkLens_sound next rest l s h
        exact ⟨k, h1, Nat.le_succ_of_le h2, h3, h4⟩
    · obtain ⟨k, h1, h2, h3, h4⟩ := chunkLens_sound next rest l s h
      exact ⟨k, h1, Nat.le_succ_of_le h2, h3, h4⟩

theorem matchChunks_none : ∀ (fuel : Nat) (t : Str),
    matchChunks fuel t = none ↔ notDigitAhead t = false
  | 0, t => by
    unfold matchChunks
    split
    · next hnd => simp [hnd]
    · next hnd => simp_all
  | fuel + 1, t => by
    unfold matchChunks
    cases t with
    | nil =>
      simp [Option.orElse, notDigitAhead]
    | cons c rest =>
      cases hfst : (if c = '-' then chunkLens (fun s => matchChunks fuel s) rest 4
          else none) with
      | some s1 => simp only [hfst, Option.orElse]
                   constructor
                   · intro hcon; cases hcon
                   · intro hnd
                     split at hfst
                     · next hc =>
                       subst hc
                       simp [notDigitAhead] at hnd
                       have : isDigitCh '-' = false := rfl
                       simp_all
                     · cases hfst
      | none =>
        simp only [hfst, Option.orElse]
        split
        · next hnd => simp [hnd]
        · next hnd => simp_all

theorem matchChunks_sound : ∀ (fuel : Nat) (t s : Str), matchChunks fuel t = some s →
    (∃ tail, t = s ++ tail ∧ notDigitAhead tail = true) ∧ chunksShape fuel s = true ∧
    (s = [] ∨ ∃ s2, s = '-' :: s2)
  | 0, t, s, h => by
    unfold matchChunks at h
    split at h
    · next hnd =>
      cases h
      exact ⟨⟨t, by simp, hnd⟩, rfl, Or.inl rfl⟩
    · cases h
  | fuel + 1, t, s, h => by
    unfold matchChunks at h
    cases t with
    | nil =>
      simp only [Option.orElse] at h
      split at h
      · next hnd =>
        cases h
        exact ⟨⟨[], by simp, hnd⟩, rfl, Or.inl rfl⟩
      · cases h
    | cons c rest =>
      cases hfst : (if c = '-' then chunkLens (fun s => matchChunks fuel s) rest 4
          else none) with
      | none =>
        dsimp only at h
        rw [hfst] at h
        simp only [Option.orElse] at h
        split at h
        · next hnd =>
          cases h
          exact ⟨⟨c :: rest, by simp, hnd⟩, rfl, Or.inl rfl⟩
        · cases h
      | some s1 =>
        dsimp only at h
        rw [hfst] at h
        simp only [Option.orElse] at h
        cases h
        split at hfst
        · next hc =>
          subst hc
          obtain ⟨k, hk1, hk4, hkrun, s2, hnext, hs⟩ :=
            chunkLens_sound _ rest 4 s hfst
          obtain ⟨⟨tail, hdec, hnd⟩, hshape, hhead⟩ :=
            matchChunks_sound fuel (rest.drop k) s2 hnext
          have hkle : k ≤ rest.length :=
            le_trans hkrun ((List.takeWhile_sublist _).length_le)
          have htklen : (rest.take k).length = k := by
            rw [List.length_take]
            omega
          have htw : ((rest.take k) ++ s2).takeWhile isClaimLetter = rest.take k := by
            apply takeWhile_append_all _ _ (take_letters hkrun)
            rcases hhead with rfl | ⟨s3, rfl⟩
            · exact Or.inl rfl
            · exact Or.inr ⟨'-', s3, rfl, rfl⟩
          refine ⟨⟨tail, ?_, hnd⟩, ?_, Or.inr ⟨_, hs⟩⟩
          · rw [hs]
            simp only [List.cons_append, List.cons.injEq, true_and]
            rw [List.append_assoc, ← hdec]
            exact (List.take_append_drop k rest).symm
          · rw [hs]
            unfold chunksShape
            rw [htw, htklen]
            have hd : ((rest.take k) ++ s2).drop k = s2 := by
              have h0 := List.drop_left (rest.take k) s2
              rwa [htklen] at h0
            rw [hd]
            simp only [decide_eq_true_eq]
            have : ('-' : Char) = '-' := rfl
            simp [hk1, hk4, hshape]
        · cases hfst

theorem matchClaimAt_some (s r : Str) (h : matchClaimAt s = some r) :
    r.take 5 = s.take 5 ∧ (s.take 5).length = 5 ∧ (s.take 5).all isDigitCh = true ∧
    chunksShape 3 (r.drop 5) = true ∧
    ∃ tail, s = r ++ tail ∧ notDigitAhead tail = true := by
  unfold matchClaimAt at h
  dsimp only at h
  split at h
  · next hcond =>
    have hcond2 := hcond
    simp only [Bool.and_eq_true, decide_eq_true_eq] at hcond2
    obtain ⟨hlen5, hdig⟩ := hcond2
    cases hmc : matchChunks 3 (s.drop 5) with
    | none => rw [hmc] at h; cases h
    | some cs =>
      rw [hmc] at h
      simp only [Option.map_some'] at h
      cases h
      obtain ⟨⟨tail, hdec, hnd⟩, hshape, _⟩ := matchChunks_sound 3 (s.drop 5) cs hmc
      have htk : (s.take 5 ++ cs).take 5 = s.take 5 := by
        have h0 := List.take_left (s.take 5) cs
        rwa [hlen5] at h0
      have hdr : (s.take 5 ++ cs).drop 5 = cs := by
        have h0 := List.drop_left (s.take 5) cs
        rwa [hlen5] at h0
      refine ⟨htk, hlen5, hdig, by rwa [hdr], tail, ?_, hnd⟩
      rw [List.append_assoc, ← hdec]
      exact (List.take_append_drop 5 s).symm
  · cases h

theorem matchClaimAt_none (s : Str) (h : matchClaimAt s = none) :
    ¬((s.take 5).length = 5 ∧ (s.take 5).all isDigitCh = true ∧
      notDigitAhead (s.drop 5) = true) := by
  unfold matchClaimAt at h
  dsimp only at h
  rintro ⟨h1, h2, h3⟩
  split at h
  · next hcond =>
    cases hmc : matchChunks 3 (s.drop 5) with
    | none =>
      have := (matchChunks_none 3 (s.drop 5)).mp hmc
      rw [h3] at this
      cases this
    | some cs => rw [hmc] at h; cases h
  · next hcond =>
    exact hcond (by simp [h1, h2])

theorem eligibleAtB_false_of_big {subj : Str} {n : Nat} (h : subj.length ≤ n) :
    eligibleAtB subj n = false := by
  have hdi : subj.drop n = [] := List.drop_eq_nil_iff_le.mpr h
  unfold eligibleAtB
  rw [hdi]
  simp

theorem claimSearch_spec : ∀ (d : Str) (subj : Str) (n : Nat), subj.drop n = d →
    ((claimSearch (subj.take n).getLast? d = none ↔
        ∀ i, n ≤ i → eligibleAtB subj i = false) ∧
     (∀ r, claimSearch (subj.take n).getLast? d = some r →
        ∃ i, n ≤ i ∧ eligibleAtB subj i = true ∧
          (∀ j, n ≤ j → j < i → eligibleAtB subj j = false) ∧
          (∃ tail, subj.drop i = r ++ tail ∧ notDigitAhead tail = true) ∧
          (r.take 5).length = 5 ∧ (r.take 5).all isDigitCh = true ∧
          chunksShape 3 (r.drop 5) = true))
  | [], subj, n, h => by
    have hlen : subj.length ≤ n := List.drop_eq_nil_iff_le.mp h
    constructor
    · simp only [claimSearch, true_iff]
      intro i hi
      exact eligibleAtB_false_of_big (le_trans hlen hi)
    · intro r hr
      cases hr
  | c :: cs, subj, n, h => by
    have hget : subj.get? n = some c := by
      have h0 := List.get?_drop subj n 0
      rw [h, Nat.add_zero] at h0
      simpa using h0.symm
    have hdrop1 : subj.drop (n + 1) = cs := by
      have h0 := List.drop_drop 1 n subj
      rw [h] at h0
      exact h0.symm
    have htake1 : (subj.take (n + 1)).getLast? = some c := by
      rw [List.take_succ]
      rw [show subj[n]? = some c from by rw [← List.get?_eq_getElem?]; exact hget]
      exact List.getLast?_concat _
    have IH := claimSearch_spec cs subj (n + 1) hdrop1
    rw [htake1] at IH
    have hsplit : ∀ i, n ≤ i → i = n ∨ n + 1 ≤ i := by
      intro i hi
      omega
    cases hguard : (((subj.take n).getLast?).map isDigitCh).getD false
    · -- previous character is not a digit: the claim pattern is attempted here
      have hexpr0 : claimSearch (subj.take n).getLast? (c :: cs) =
          (matchClaimAt (c :: cs)).orElse fun _ => claimSearch (some c) cs := by
        simp only [claimSearch, hguard, Bool.false_eq_true, if_false]
      have hprevOk : (match (subj.take n).getLast? with
          | none => true
          | some ch => !isDigitCh ch) = true := by
        cases hpl : (subj.take n).getLast? with
        | none => rfl
        | some ch =>
          rw [hpl] at hguard
          simp only [Option.map_some', Option.getD_some] at hguard
          simp [hguard]
      cases hm : matchClaimAt (c :: cs) with
      | some r0 =>
        have hexpr : claimSearch (subj.take n).getLast? (c :: cs) = some r0 := by
          rw [hexpr0, hm]
          rfl
        obtain ⟨ht5, hlen5, hdig5, hshape0, ⟨tail, hdec, hnd⟩⟩ := matchClaimAt_some _ _ hm
        have hr0len : 5 ≤ r0.length := by
          have := congrArg List.length ht5
          rw [List.length_take, hlen5] at this
          omega
        have hnd5 : notDigitAhead ((c :: cs).drop 5) = true := by
          have hdc : (c :: cs).drop 5 = r0.drop 5 ++ tail := by
            rw [hdec, List.drop_append_of_le_length hr0len]
          rw [hdc]
          cases hr5 : r0.drop 5 with
          | nil => simpa using hnd
          | cons d ds =>
            have hd : d = '-' := by
              have := hshape0
              rw [hr5] at this
              unfold chunksShape at this
              simp only [Bool.and_eq_true, decide_eq_true_eq] at this
              exact this.1.1.1
            simp [notDigitAhead, hd]
            rfl
        have helig : eligibleAtB subj n = true := by
          unfold eligibleAtB
          rw [h, hprevOk, hlen5, hdig5, hnd5]
          simp
        constructor
        · rw [hexpr]
          constructor
          · intro hc
            cases hc
          · intro hall
            rw [hall n (Nat.le_refl n)] at helig
            cases helig
        · intro r hr
          rw [hexpr] at hr
          cases hr
          refine ⟨n, Nat.le_refl n, helig, ?_, ⟨tail, by rw [h]; exact hdec, hnd⟩,
            ?_, ?_, hshape0⟩
          · intro j hj1 hj2
            omega
          · rw [ht5, hlen5]
          · rw [ht5]
            exact hdig5
      | none =>
        have hexpr : claimSearch (subj.take n).getLast? (c :: cs) =
            claimSearch (some c) cs := by
          rw [hexpr0, hm]
          rfl
        have hnotelig : eligibleAtB subj n = false := by
          have hmn := matchClaimAt_none _ hm
          unfold eligibleAtB
          rw [h]
          by_cases h1 : ((c :: cs).take 5).length = 5
          · by_cases h2 : ((c :: cs).take 5).all isDigitCh = true
            · have h3 : notDigitAhead ((c :: cs).drop 5) = false := by
                cases h3 : notDigitAhead ((c :: cs).drop 5)
                · rfl
                · exact absurd ⟨h1, h2, h3⟩ hmn
              rw [h3]
              simp only [Bool.and_false]
            · have h2f : ((c :: cs).take 5).all isDigitCh = false :=
                Bool.eq_false_iff.mpr h2
              rw [h2f]
              simp only [Bool.and_false, Bool.false_and]
          · have h1f : decide (((c :: cs).take 5).length = 5) = false :=
              decide_eq_false h1
            rw [h1f]
            simp only [Bool.and_false, Bool.false_and]
        rw [hexpr]
        constructor
        · rw [IH.1]
          constructor
          · intro hall i hi
            rcases hsplit i hi with rfl | hge
            · exact hnotelig
            · exact hall i hge
          · intro hall i hi
            exact hall i (by omega)
        · intro r hr
          obtain ⟨i, hi1, hi2, hmin, hrest⟩ := IH.2 r hr
          refine ⟨i, by omega, hi2, ?_, hrest⟩
          intro j hj1 hj2
          rcases hsplit j hj1 with rfl | hge
          · exact hnotelig
          · exact hmin j hge hj2
    · -- previous character is a digit: position n is skipped
      have hexpr : claimSearch (subj.take n).getLast? (c :: cs) =
          claimSearch (some c) cs := by
        simp only [claimSearch, hguard, if_true]
        rfl
      have hnotelig : eligibleAtB subj n = false := by
        unfold eligibleAtB
        cases hpl : (subj.take n).getLast? with
        | none =>
          rw [hpl] at hguard
          cases hguard
        | some ch =>
          rw [hpl] at hguard
          simp only [Option.map_some', Option.getD_some] at hguard
          dsimp only
          rw [hguard]
          simp only [Bool.not_true, Bool.false_and]
      rw [hexpr]
      constructor
      · rw [IH.1]
        constructor
        · intro hall i hi
          rcases hsplit i hi with rfl | hge
          · exact hnotelig
          · exact hall i hge
        · intro hall i hi
          exact hall i (by omega)
      · intro r hr
        obtain ⟨i, hi1, hi2, hmin, hrest⟩ := IH.2 r hr
        refine ⟨i, by omega, hi2, ?_, hrest⟩
        intro j hj1 hj2
        rcases hsplit j hj1 with rfl | hge
        · exact hnotelig
        · exact hmin j hge hj2

/-- C7: claim-ID extraction scans the subject for the first position
carrying exactly 5 digits not adjacent to other digits; the returned
token starts with those 5 digits and continues with at most 3 suffix
chunks, each a hyphen plus 1 to 4 letters (Latin or Cyrillic), with no
digit adjacent after the match; if no such position exists anywhere the
result is None, and an item whose subject yields None is routed to the
"other" bucket of the correlator. -/
theorem claim_id_extraction (subj : Str) :
    (_extract_claim subj = none ↔ ∀ i, eligibleAtB subj i = false) ∧
    (∀ r, _extract_claim subj = some r →
      ∃ i, eligibleAtB subj i = true ∧ (∀ j, j < i → eligibleAtB subj j = false) ∧
        (∃ tail, subj.drop i = r ++ tail ∧ notDigitAhead tail = true) ∧
        (r.take 5).length = 5 ∧ (r.take 5).all isDigitCh = true ∧
        chunksShape 3 (r.drop 5) = true) ∧
    (∀ (batch : List MailItem), ∀ it ∈ batch, _extract_claim it.subject = none →
      it ∈ (correlate batch).2) := by
  have hspec := claimSearch_spec subj subj 0 (List.drop_zero subj)
  have h0 : (subj.take 0).getLast? = (none : Option Char) := rfl
  rw [h0] at hspec
  have hex : _extract_claim subj = claimSearch none subj := rfl
  refine ⟨?_, ?_, ?_⟩
  · rw [hex, hspec.1]
    constructor
    · intro hall i
      exact hall i (Nat.zero_le i)
    · intro hall i _
      exact hall i
  · intro r hr
    rw [hex] at hr
    obtain ⟨i, _, helig, hmin, hrest⟩ := hspec.2 r hr
    exact ⟨i, helig, fun j hj => hmin j (Nat.zero_le j) hj, hrest⟩
  · intro batch it hit hnone
    unfold correlate
    dsimp only
    rw [(List.perm_insertionSort _ _).mem_iff]
    rw [routeLoop_others batch [] []]
    simp only [List.nil_append]
    exact List.mem_filter.mpr ⟨hit, by simp [hnone]⟩

/-- Witness for C7: a subject with a claim token after a Cyrillic prefix,
and a claimless item routed to the "other" bucket. -/
theorem claim_id_extraction_witness :
    _extract_claim "Re: заявка 12345-АБ доп".toList = some "12345-АБ".toList ∧
    (∃ i, eligibleAtB "Re: заявка 12345-АБ доп".toList i = true ∧
      (∀ j, j < i → eligibleAtB "Re: заявка 12345-АБ доп".toList j = false) ∧
      (∃ tail, ("Re: заявка 12345-АБ доп".toList).drop i = "12345-АБ".toList ++ tail ∧
        notDigitAhead tail = true) ∧
      ("12345-АБ".toList.take 5).length = 5 ∧
      ("12345-АБ".toList.take 5).all isDigitCh = true ∧
      chunksShape 3 ("12345-АБ".toList.drop 5) = true) ∧
    (⟨7, "без номера".toList⟩ : MailItem) ∈
      (correlate [⟨7, "без номера".toList⟩]).2 := by
  refine ⟨by decide, ?_, ?_⟩
  · exact (claim_id_extraction "Re: заявка 12345-АБ доп".toList).2.1
      "12345-АБ".toList (by decide)
  · exact (claim_id_extraction "без номера".toList).2.2
      [⟨7, "без номера".toList⟩] ⟨7, "без номера".toList⟩
      (List.mem_singleton.mpr rfl) (by decide)

theorem dropWhile_head_not (p : Char → Bool) :
    ∀ l : Str, l.dropWhile p = [] ∨ ∃ c cs, l.dropWhile p = c :: cs ∧ p c = false
  | [] => Or.inl rfl
  | c :: cs => by
    cases hc : p c
    · exact Or.inr ⟨c, cs, by simp [List.dropWhile_cons, hc], hc⟩
    · simpa [List.dropWhile_cons, hc] using dropWhile_head_not p cs

theorem dropWhile_idem (p : Char → Bool) (l : Str) :
    (l.dropWhile p).dropWhile p = l.dropWhile p := by
  rcases dropWhile_head_not p l with h | ⟨c, cs, h, hc⟩ <;> rw [h]
  · rfl
  · simp [List.dropWhile_cons, hc]

theorem dropWhile_getLast? (p : Char → Bool) :
    ∀ m : Str, m.dropWhile p = [] ∨
      (m.dropWhile p ≠ [] ∧ (m.dropWhile p).getLast? = m.getLast?)
  | [] => Or.inl rfl
  | c :: cs => by
    cases hc : p c
    · refine Or.inr ⟨by simp [List.dropWhile_cons, hc], ?_⟩
      rw [show (c :: cs).dropWhile p = c :: cs by simp [List.dropWhile_cons, hc]]
    · rw [show (c :: cs).dropWhile p = cs.dropWhile p by simp [List.dropWhile_cons, hc]]
      rcases dropWhile_getLast? p cs with h | ⟨hne, hgl⟩
      · exact Or.inl h
      · refine Or.inr ⟨hne, ?_⟩
        have hcs : cs ≠ [] := by
          intro hcon
          rw [hcon] at hne
          exact hne rfl
        obtain ⟨c2, cs2, rfl⟩ := List.exists_cons_of_ne_nil hcs
        rw [hgl, List.getLast?_cons_cons]

theorem pyStrip_idem (l : Str) : pyStrip (pyStrip l) = pyStrip l := by
  have hBidem : ((l.dropWhile pyWs).reverse.dropWhile pyWs).dropWhile pyWs =
      (l.dropWhile pyWs).reverse.dropWhile pyWs := dropWhile_idem pyWs _
  have hfst : (((l.dropWhile pyWs).reverse.dropWhile pyWs).reverse).dropWhile pyWs =
      ((l.dropWhile pyWs).reverse.dropWhile pyWs).reverse := by
    rcases dropWhile_head_not pyWs l with hA | ⟨a, as, hA, ha⟩
    · rw [hA]
      rfl
    · rcases dropWhile_getLast? pyWs (l.dropWhile pyWs).reverse with hB | ⟨hBne, hBgl⟩
      · rw [hB]
        rfl
      · have hgl2 : ((l.dropWhile pyWs).reverse.dropWhile pyWs).getLast? = some a := by
          rw [hBgl, List.getLast?_reverse, hA]
          rfl
        have hhd : (((l.dropWhile pyWs).reverse.dropWhile pyWs).reverse).head? = some a := by
          rw [List.head?_reverse]
          exact hgl2
        cases hrv : ((l.dropWhile pyWs).reverse.dropWhile pyWs).reverse with
        | nil => rfl
        | cons b bs =>
          rw [hrv] at hhd
          simp only [List.head?_cons, Option.some.injEq] at hhd
          subst hhd
          simp [List.dropWhile_cons, ha]
  unfold pyStrip
  rw [hfst, List.reverse_reverse, hBidem]

theorem is_city_header_strip (l : Str) :
    _is_city_header_line (pyStrip l) = _is_city_header_line l := by
  unfold _is_city_header_line
  rw [pyStrip_idem]

theorem extract_city_strip (l : Str) :
    _extract_city_from_header (pyStrip l) = _extract_city_from_header l := by
  unfold _extract_city_from_header
  rw [pyStrip_idem]

theorem findStartIdx_congr {q : Str → Bool} {c d : Str} (pre post : List Str)
    (hc : (pyStrip c).isEmpty = false) (hd : (pyStrip d).isEmpty = false)
    (hq : q (pyStrip c) = q (pyStrip d)) :
    findStartIdx q (pre ++ c :: post) = findStartIdx q (pre ++ d :: post) := by
  induction pre with
  | nil => simp [findStartIdx, hc, hd, hq]
  | cons a pre ih => simp [findStartIdx, ih]

theorem findBoundary_congr {q : Str → Bool} {c d : Str} (pre post : List Str)
    (hc : (pyStrip c).isEmpty = false) (hd : (pyStrip d).isEmpty = false)
    (hq : q (pyStrip c) = q (pyStrip d)) :
    findBoundary q (pre ++ c :: post) = findBoundary q (pre ++ d :: post) := by
  induction pre with
  | nil => simp [findBoundary, hc, hd, hq]
  | cons a pre ih => simp [findBoundary, ih]

theorem findStartIdx_eq_some {q : Str → Bool} :
    ∀ (ls : List Str) (i : Nat), findStartIdx q ls = some i →
      ∃ l rest, ls.drop i = l :: rest ∧ q (pyStrip l) = true := by
  intro ls
  induction ls with
  | nil => intro i h; simp [findStartIdx] at h
  | cons l ls ih =>
    intro i h
    unfold findStartIdx at h
    by_cases h1 : (pyStrip l).isEmpty = true
    · rw [if_pos h1] at h
      cases hrec : findStartIdx q ls with
      | none => rw [hrec] at h; cases h
      | some j =>
        rw [hrec, Option.map_some', Option.some.injEq] at h
        subst h
        obtain ⟨m, rest, hm, hqm⟩ := ih j hrec
        exact ⟨m, rest, hm, hqm⟩
    · rw [if_neg h1] at h
      by_cases h2 : q (pyStrip l) = true
      · rw [if_pos h2, Option.some.injEq] at h
        subst h
        exact ⟨l, ls, rfl, h2⟩
      · rw [if_neg h2] at h
        cases hrec : findStartIdx q ls with
        | none => rw [hrec] at h; cases h
        | some j =>
          rw [hrec, Option.map_some', Option.some.injEq] at h
          subst h
          obtain ⟨m, rest, hm, hqm⟩ := ih j hrec
          exact ⟨m, rest, hm, hqm⟩

theorem findBoundary_le {q : Str → Bool} :
    ∀ (ls : List Str) (i : Nat) (l : Str) (rest : List Str),
      ls.drop i = l :: rest → (pyStrip l).isEmpty = false → q (pyStrip l) = true →
      findBoundary q ls ≤ i := by
  intro ls
  induction ls with
  | nil =>
    intro i l rest hd
    rw [List.drop_nil] at hd
    cases hd
  | cons a ls ih =>
    intro i l rest hd hne hq
    cases i with
    | zero =>
      rw [List.drop_zero] at hd
      injection hd with h1 h2
      subst h1
      simp [findBoundary, hne, hq]
    | succ m =>
      have hd2 : ls.drop m = l :: rest := hd
      have hrec := ih m l rest hd2 hne hq
      unfold findBoundary
      by_cases h1 : (pyStrip a).isEmpty = true
      · rw [if_pos h1]; omega
      · rw [if_neg h1]
        by_cases h2 : q (pyStrip a) = true
        · rw [if_pos h2]; omega
        · rw [if_neg h2]; omega

theorem drop_append_ge {α : Type} :
    ∀ (a b : List α) (n : Nat), a.length ≤ n → (a ++ b).drop n = b.drop (n - a.length) := by
  intro a
  induction a with
  | nil => intro b n h; simp
  | cons x a ih =>
    intro b n h
    cases n with
    | zero => exact absurd h (by simp)
    | succ m =>
      simp only [List.cons_append, List.drop_succ_cons, List.length_cons]
      rw [ih b m (by simpa using h)]
      congr 1
      omega

/-- C5: a header line carrying a parenthesized count segments exactly as
the plain header line with the same identity: in two messages whose line
lists differ only in that one has the counted header `c` where the other
has a plain header `p` of the same extracted identity (an identity
foreign to the target), `extract_city_block` returns the identical block;
moreover the counted form derives its identity from the count-stripped
group (`CITY_HEADER_WITH_COUNT_RE` group 1), confirming that the count
syntax is stripped before identity extraction. -/
theorem counted_header_boundary (target c p : Str) (pre post : List Str)
    (textC textP : Str)
    (hcc : (cityHeaderCountMatch (pyStrip c)).isSome = true)
    (hpp : (cityHeaderMatch (pyStrip p)).isSome = true)
    (hid : _extract_city_from_header c = _extract_city_from_header p)
    (hno : _extract_city_from_header c ∉ targetAliasList target)
    (hT1 : pySplitlines textC = pre ++ c :: post)
    (hT2 : pySplitlines textP = pre ++ p :: post) :
    extract_city_block textC target = extract_city_block textP target ∧
      _extract_city_from_header c =
        _normalize_city ((cityHeaderCountMatch (pyStrip c)).getD []) := by
  obtain ⟨g, hg⟩ := Option.isSome_iff_exists.mp hcc
  constructor
  · -- block equality
    have hnop : _extract_city_from_header p ∉ targetAliasList target := hid ▸ hno
    have hne_c : (pyStrip c).isEmpty = false := by
      cases hE : (pyStrip c).isEmpty
      · rfl
      · rw [List.isEmpty_iff] at hE
        rw [hE] at hcc
        exact absurd hcc (by decide)
    have hne_p : (pyStrip p).isEmpty = false := by
      cases hE : (pyStrip p).isEmpty
      · rfl
      · rw [List.isEmpty_iff] at hE
        rw [hE] at hpp
        exact absurd hpp (by decide)
    have hhc : _is_city_header_line c = true := by
      simp [_is_city_header_line, hcc]
    have hhp : _is_city_header_line p = true := by
      simp [_is_city_header_line, hpp]
    have hSc : blockStartPred (targetAliasList target) (pyStrip c) = false := by
      unfold blockStartPred
      rw [is_city_header_strip, extract_city_strip, hhc]
      simp [hno]
    have hSp : blockStartPred (targetAliasList target) (pyStrip p) = false := by
      unfold blockStartPred
      rw [is_city_header_strip, extract_city_strip, hhp]
      simp [hnop]
    have hEc : blockEndPred (targetAliasList target) (pyStrip c) = true := by
      unfold blockEndPred
      rw [is_city_header_strip, extract_city_strip, hhc]
      simp [hno]
    have hEp : blockEndPred (targetAliasList target) (pyStrip p) = true := by
      unfold blockEndPred
      rw [is_city_header_strip, extract_city_strip, hhp]
      simp [hnop]
    unfold extract_city_block
    rw [hT1, hT2]
    dsimp only
    have hS : findStartIdx (blockStartPred (targetAliasList target)) (pre ++ c :: post)
        = findStartIdx (blockStartPred (targetAliasList target)) (pre ++ p :: post) :=
      findStartIdx_congr pre post hne_c hne_p (by rw [hSc, hSp])
    rw [hS]
    cases hfs : findStartIdx (blockStartPred (targetAliasList target)) (pre ++ p :: post) with
    | none => rfl
    | some start =>
      dsimp only
      obtain ⟨l0, rest0, hdrop0, hq0⟩ := findStartIdx_eq_some _ _ hfs
      rcases Nat.lt_trichotomy start pre.length with hlt | heqp | hgt
      · -- start strictly inside pre: the slice stays within pre
        have hsp1 : start + 1 ≤ pre.length := hlt
        have hdA : (pre ++ c :: post).drop (start + 1) = pre.drop (start + 1) ++ c :: post :=
          List.drop_append_of_le_length hsp1
        have hdB : (pre ++ p :: post).drop (start + 1) = pre.drop (start + 1) ++ p :: post :=
          List.drop_append_of_le_length hsp1
        have hB : findBoundary (blockEndPred (targetAliasList target))
              (pre.drop (start + 1) ++ c :: post)
            = findBoundary (blockEndPred (targetAliasList target))
              (pre.drop (start + 1) ++ p :: post) :=
          findBoundary_congr _ _ hne_c hne_p (by rw [hEc, hEp])
        have hble : findBoundary (blockEndPred (targetAliasList target))
              (pre.drop (start + 1) ++ c :: post) ≤ (pre.drop (start + 1)).length :=
          findBoundary_le _ _ c post (by rw [List.drop_left]) hne_c hEc
        have hbP : findBoundary (blockEndPred (targetAliasList target))
              (pre.drop (start + 1) ++ p :: post) ≤ pre.length - (start + 1) := by
          rw [← hB]
          rw [List.length_drop] at hble
          exact hble
        have hdC : (pre ++ c :: post).drop start = pre.drop start ++ c :: post :=
          List.drop_append_of_le_length (Nat.le_of_lt hlt)
        have hdD : (pre ++ p :: post).drop start = pre.drop start ++ p :: post :=
          List.drop_append_of_le_length (Nat.le_of_lt hlt)
        rw [hdA, hdB, hB, hdC, hdD]
        have ht : start + 1
              + findBoundary (blockEndPred (targetAliasList target))
                  (pre.drop (start + 1) ++ p :: post) - start
            ≤ (pre.drop start).length := by
          rw [List.length_drop]
          omega
        rw [List.take_append_of_le_length ht, List.take_append_of_le_length ht]
      · -- start at the swapped line: impossible, its start predicate is false
        exfalso
        rw [heqp, List.drop_left] at hdrop0
        injection hdrop0 with h1 h2
        subst h1
        rw [hSp] at hq0
        cases hq0
      · -- start past the swapped line: both tails coincide
        have hg1 : (pre ++ [c]).length ≤ start := by simp; omega
        have hg2 : (pre ++ [p]).length ≤ start := by simp; omega
        have hd1 : (pre ++ c :: post).drop start = post.drop (start - (pre.length + 1)) := by
          have h0 := drop_append_ge (pre ++ [c]) post start hg1
          rw [List.append_assoc] at h0
          simpa using h0
        have hd2 : (pre ++ p :: post).drop start = post.drop (start - (pre.length + 1)) := by
          have h0 := drop_append_ge (pre ++ [p]) post start hg2
          rw [List.append_assoc] at h0
          simpa using h0
        have hg1' : (pre ++ [c]).length ≤ start + 1 := by simp; omega
        have hg2' : (pre ++ [p]).length ≤ start + 1 := by simp; omega
        have hd1' : (pre ++ c :: post).drop (start + 1)
            = post.drop (start + 1 - (pre.length + 1)) := by
          have h0 := drop_append_ge (pre ++ [c]) post (start + 1) hg1'
          rw [List.append_assoc] at h0
          simpa using h0
        have hd2' : (pre ++ p :: post).drop (start + 1)
            = post.drop (start + 1 - (pre.length + 1)) := by
          have h0 := drop_append_ge (pre ++ [p]) post (start + 1) hg2'
          rw [List.append_assoc] at h0
          simpa using h0
        rw [hd1, hd2, hd1', hd2']
  · -- identity of the counted form comes from the count-stripped group
    unfold _extract_city_from_header
    dsimp only
    rw [hg]
    rfl

/-- Witness for C5: in the demo message, replacing the foreign counted
header "Москва (2)" by the plain "Москва" leaves the extracted
Санкт-Петербург block unchanged, and the counted form's identity is the
normalized count-stripped group. -/
theorem counted_header_boundary_witness :
    extract_city_block "Питер\nМосква (2)\n1. Иван".toList "Санкт-Петербург".toList =
      extract_city_block "Питер\nМосква\n1. Иван".toList "Санкт-Петербург".toList ∧
    _extract_city_from_header "Москва (2)".toList =
      _normalize_city ((cityHeaderCountMatch (pyStrip "Москва (2)".toList)).getD []) :=
  counted_header_boundary "Санкт-Петербург".toList "Москва (2)".toList "Москва".toList
    ["Питер".toList] ["1. Иван".toList]
    "Питер\nМосква (2)\n1. Иван".toList "Питер\nМосква\n1. Иван".toList
    (by decide) (by decide) (by decide) (by decide) (by decide) (by decide)

end MoltMail
